import Mathlib

/-!
Verification of the nano-ecs entity-component manager.

The development shallowly embeds the JavaScript sources:
  * `src/lib/Entity.js` — the entity handle (id counter, local component-type
    and tag lists, `hasAllComponents`, `__init` re-initialisation);
  * `src/unnamed/part_000` — the `EntityManager` class (namespace `Part0`);
  * `src/unnamed/part_001` — the second, stylistically different copy of the
    `EntityManager` class (namespace `Part1`).

Modelling conventions:
  * JavaScript object references to entities become natural-number handles
    (`Nat`), indices into an allocation store `Manager.store`; the store entry
    holds the mutable fields of the entity object (`id`, `_tags`,
    `_Components`, and the dynamically attached component properties).
  * JavaScript component constructor functions become `CompType` values: a
    numeric identity (standing for reference identity of the function object)
    together with the string returned by the `typedef` `getName` collaborator.
    Two distinct function objects may carry the same name, as in JS.
  * Plain objects used as string-keyed maps (`_tags`, `_groups`, the property
    table of an entity) become insertion-ordered association lists; JS objects
    cannot hold a duplicate key, and `for … in` iterates string keys in
    insertion order, which the association list preserves.
  * Thrown exceptions become an `Option String` error slot in the operation
    result; the manager state in the result is the state at the moment the
    exception escapes (JS mutations performed before a `throw` stay applied).
  * `entity.emit(...)` notifications become an event trace in the result.
  * The `reuse-pool` dependency is not part of this repository; its `get` /
    `recycle` stack is modelled from the spec's pooling collaborator contract,
    with `get` running `Entity.__init` (src/lib/Entity.js lines 40-45) on a
    recycled instance and the `Entity` constructor on a fresh one.
  * The `_groupKeyMap` `WeakMap` only memoises the pure `_groupKey`
    computation per array instance (arrays are values here), so it is
    observationally transparent and carries no state in the model.
  * JS `toLowerCase` and string comparison are modelled on code points, which
    agrees with JS code-unit semantics for the ASCII names used throughout.
-/

/-! ### JS string primitives -/

/-- JS `<` on strings: lexicographic comparison of code units. -/
def jsStrLtb : List Char → List Char → Bool
  | _, [] => false
  | [], _ :: _ => true
  | a :: as, b :: bs => if a.toNat = b.toNat then jsStrLtb as bs else decide (a.toNat < b.toNat)

theorem jsStrLtb_irrefl (l : List Char) : jsStrLtb l l = false := by
  induction l with
  | nil => rfl
  | cons a as ih => simp [jsStrLtb, ih]

theorem jsStrLtb_trans {l1 l2 l3 : List Char} (h12 : jsStrLtb l1 l2 = true)
    (h23 : jsStrLtb l2 l3 = true) : jsStrLtb l1 l3 = true := by
  induction l1 generalizing l2 l3 with
  | nil =>
    cases l3 with
    | nil => cases l2 <;> simp_all [jsStrLtb]
    | cons c cs => simp [jsStrLtb]
  | cons a as ih =>
    cases l2 with
    | nil => simp [jsStrLtb] at h12
    | cons b bs =>
      cases l3 with
      | nil => simp [jsStrLtb] at h23
      | cons c cs =>
        simp only [jsStrLtb] at h12 h23 ⊢
        by_cases hab : a.toNat = b.toNat <;> by_cases hbc : b.toNat = c.toNat
        · rw [if_pos hab] at h12
          rw [if_pos hbc] at h23
          rw [if_pos (hab.trans hbc)]
          exact ih h12 h23
        · rw [if_pos hab] at h12
          rw [if_neg hbc] at h23
          rw [hab, if_neg hbc]
          exact h23
        · rw [if_neg hab] at h12
          rw [if_pos hbc] at h23
          rw [if_neg (hbc ▸ hab)]
          exact hbc ▸ h12
        · rw [if_neg hab] at h12
          rw [if_neg hbc] at h23
          have hlt : a.toNat < c.toNat := lt_trans (by simpa using h12) (by simpa using h23)
          have hac : a.toNat ≠ c.toNat := Nat.ne_of_lt hlt
          simp [if_neg hac, hlt]

theorem char_toNat_inj {a b : Char} (h : a.toNat = b.toNat) : a = b := by
  apply Char.ext
  exact UInt32.ext h

theorem jsStrLtb_eq_of_not {l1 l2 : List Char} (h12 : jsStrLtb l1 l2 = false)
    (h21 : jsStrLtb l2 l1 = false) : l1 = l2 := by
  induction l1 generalizing l2 with
  | nil => cases l2 with
    | nil => rfl
    | cons b bs => simp [jsStrLtb] at h12
  | cons a as ih =>
    cases l2 with
    | nil => simp [jsStrLtb] at h21
    | cons b bs =>
      simp only [jsStrLtb] at h12 h21
      by_cases hab : a.toNat = b.toNat
      · simp only [if_pos hab] at h12
        simp only [if_pos hab.symm] at h21
        have := ih h12 h21
        rw [char_toNat_inj hab, this]
      · simp only [if_neg hab] at h12
        simp only [if_neg (Ne.symm hab)] at h21
        simp at h12 h21
        omega

/-- The comparator order used by JS `Array.prototype.sort()` with no
comparator argument: default string ordering. -/
def jsLe (a b : String) : Prop := jsStrLtb b.data a.data = false

instance : DecidableRel jsLe := fun a b => by unfold jsLe; infer_instance

instance : IsTotal String jsLe := by
  constructor
  intro a b
  unfold jsLe
  by_cases h : jsStrLtb b.data a.data = false
  · exact Or.inl h
  · right
    simp at h
    by_cases h2 : jsStrLtb a.data b.data = true
    · exact absurd (jsStrLtb_trans h h2) (by simp [jsStrLtb_irrefl])
    · simpa using h2

instance : IsTrans String jsLe := by
  constructor
  intro a b c hab hbc
  unfold jsLe at *
  by_contra h
  simp at h
  rcases Bool.eq_false_or_eq_true (jsStrLtb b.data c.data) with h1 | h1
  · exact absurd (jsStrLtb_trans h1 h) (by simp [hab])
  · have hbceq : b.data = c.data := jsStrLtb_eq_of_not h1 hbc
    rw [← hbceq] at h
    simp_all

instance : IsAntisymm String jsLe := by
  constructor
  intro a b hab hba
  unfold jsLe at *
  have := jsStrLtb_eq_of_not hba hab
  cases a; cases b; simp_all

/-- JS `Array.prototype.sort()` on strings: a stable comparator sort
(modelled with insertion sort, which is stable). -/
def jsSort (l : List String) : List String := l.insertionSort jsLe

theorem jsSort_perm_eq {l1 l2 : List String} (h : l1.Perm l2) : jsSort l1 = jsSort l2 := by
  exact List.eq_of_perm_of_sorted
    (((List.perm_insertionSort _ l1).trans h).trans (List.perm_insertionSort _ l2).symm)
    (List.sorted_insertionSort _ l1) (List.sorted_insertionSort _ l2)

/-- JS `String.prototype.toLowerCase`, on the ASCII range used by the code. -/
def jsToLower (s : String) : String := ⟨s.data.map Char.toLower⟩

/-! ### Data model -/

/-- A component constructor function: reference identity (`cid`) plus the
name the `typedef` `getName` collaborator derives for it (`cname`, possibly
empty for an anonymous function). -/
structure CompType where
  cid : Nat
  cname : String
deriving DecidableEq, Repr

/-- The mutable fields of one `Entity` object (src/lib/Entity.js):
`id`, `_tags`, `_Components`, and the component instances dynamically
attached under derived property names (instance modelled by the `cid` of
its constructor). -/
structure EntityData where
  eid : Nat
  tags : List String
  comps : List CompType
  props : List (String × Nat)
deriving DecidableEq, Repr, Inhabited

/-- A component group (the `Group` constructor of the manager sources; the
name `Group` itself is taken by Mathlib). -/
structure CompGroup where
  Components : List CompType
  entities : List Nat
deriving DecidableEq, Repr

/-- The `EntityManager` state: `_tags`, `_entities`, `_groups`, the entity
pool, the `camelCase` option, the allocation store of entity objects
(reference = index), and the module-level `nextId` counter of Entity.js. -/
structure Manager where
  tags : List (String × List Nat)
  entities : List Nat
  groups : List (String × CompGroup)
  pool : List Nat
  camelCase : Bool
  store : List EntityData
  nextId : Nat
deriving DecidableEq, Repr

/-- Events `emit`ted on entities during an operation. -/
inductive Ev where
  | added (r : Nat) (c : CompType)
  | removed (r : Nat) (c : CompType)
deriving DecidableEq, Repr

/-- Result of a manager operation: post-state, the notifications emitted
(chronological), and the escaped exception if one was thrown. -/
structure OpResult where
  m : Manager
  tr : List Ev
  err : Option String
deriving DecidableEq, Repr

/-- Dereference an entity handle. Handles produced by `createEntity` are
always in range; the default is never reached on those. -/
def getE (m : Manager) (r : Nat) : EntityData := m.store.getD r default

def setE (m : Manager) (r : Nat) (e : EntityData) : Manager :=
  { m with store := m.store.set r e }

/-! ### Association-list helpers (JS objects used as string-keyed maps) -/

def lookupA {β : Type} (l : List (String × β)) (k : String) : Option β :=
  match l with
  | [] => none
  | p :: rest => if p.1 = k then some p.2 else lookupA rest k

/-- In-place update of the value stored at a key (JS mutates the stored
array object, keeping the key's insertion position). -/
def updA {β : Type} (l : List (String × β)) (k : String) (v : β) : List (String × β) :=
  l.map (fun p => if p.1 = k then (k, v) else p)

/-- JS `obj[k] = v`: overwrite if present, else append in insertion order. -/
def setKey (l : List (String × Nat)) (k : String) (v : Nat) : List (String × Nat) :=
  if (lookupA l k).isSome then updA l k v else l ++ [(k, v)]

/-- JS `delete obj[k]`. -/
def removeKey (l : List (String × Nat)) (k : String) : List (String × Nat) :=
  l.filter (fun p => p.1 != k)

/-- JS `Array.prototype.indexOf`: position of the first occurrence, `none`
for `-1`. -/
def jsIndexOf {α : Type} [DecidableEq α] (l : List α) (a : α) : Option Nat :=
  match l with
  | [] => none
  | b :: rest => if b = a then some 0 else (jsIndexOf rest a).map (· + 1)

/-- JS `arr.splice(arr.indexOf(a), 1)`: removes the first occurrence if
present; when `indexOf` is `-1`, `splice(-1, 1)` removes the LAST element. -/
def spliceAtIdxOf {α : Type} [DecidableEq α] (l : List α) (a : α) : List α :=
  match jsIndexOf l a with
  | some i => l.eraseIdx i
  | none => l.dropLast

/-! ### Entity.js -/

/-- `hasAllComponents` (src/lib/Entity.js lines 80-87): true iff every type
in the input is in the entity's `_Components` list (empty input trivially
true; the JS `b &= …` accumulator is boolean-equivalent to this). -/
def hasAllComponents (e : EntityData) (Components : List CompType) : Bool :=
  Components.all (fun C => e.comps.contains C)

/-! ### part_000 EntityManager -/

namespace Part0

/-- `componentPropertyName` (src/unnamed/part_000 lines 305-314): derives the
attachment property name from `getName`; throws on an empty name; optionally
lowercases the first character. -/
def componentPropertyName (Component : CompType) (camelCase : Bool) : Option String :=
  let name := Component.cname
  if name = "" then
    none
  else if !camelCase then
    some name
  else
    match name.data with
    | [] => some name
    | ch :: rest => some ⟨ch.toLower :: rest⟩

/-- `_groupKey` (src/unnamed/part_000 lines 269-285): lowercased names,
default-sorted, joined with `'-'`. The `WeakMap` memoisation layer is
observationally transparent and not modelled. -/
def groupKey (Components : List CompType) : String :=
  let names := Components.map (fun T => T.cname)
  String.intercalate "-" (jsSort (names.map jsToLower))

/-- The module export `function (options) { return new EntityManager(options) }`
with the constructor's option merge `{ camelCase: true } ⊕ options`
(src/unnamed/part_000 lines 1-3 and 15-54). -/
def mkManager (options : Option Bool) : Manager :=
  { tags := [], entities := [], groups := [], pool := [],
    camelCase := options.getD true, store := [], nextId := 0 }

/-- `createEntity` (src/unnamed/part_000 lines 59-64). The pool `get` is the
external `reuse-pool` collaborator, modelled from the spec's pooling
contract: pop a recycled instance and run `Entity.__init`
(src/lib/Entity.js lines 40-45: fresh id, cleared lists), or construct a
fresh `Entity` (src/lib/Entity.js lines 9-35). Returns the new handle. -/
def createEntity (m : Manager) : Manager × Nat :=
  match m.pool with
  | r :: rest =>
    let e := getE m r
    let e2 := { e with eid := m.nextId, comps := [], tags := [] }
    let m1 := { m with pool := rest, store := m.store.set r e2, nextId := m.nextId + 1 }
    ({ m1 with entities := m1.entities ++ [r] }, r)
  | [] =>
    let r := m.store.length
    let e : EntityData := { eid := m.nextId, tags := [], comps := [], props := [] }
    let m1 := { m with store := m.store ++ [e], nextId := m.nextId + 1 }
    ({ m1 with entities := m1.entities ++ [r] }, r)

/-- `entityAddTag` (src/unnamed/part_000 lines 117-128). -/
def entityAddTag (m : Manager) (r : Nat) (tag : String) : Manager :=
  match lookupA m.tags tag with
  | none =>
    -- entities = this._tags[tag] = []; indexOf misses; push to both lists
    let e := getE m r
    { setE m r { e with tags := e.tags ++ [tag] } with tags := m.tags ++ [(tag, [r])] }
  | some entities =>
    if entities.contains r then
      m
    else
      let e := getE m r
      { setE m r { e with tags := e.tags ++ [tag] } with
          tags := updA m.tags tag (entities ++ [r]) }

/-- `entityRemoveTag` (src/unnamed/part_000 lines 133-143). Note the local
list update is `splice(indexOf(tag), 1)`, which removes the last element
when the tag is missing locally. -/
def entityRemoveTag (m : Manager) (r : Nat) (tag : String) : Manager :=
  match lookupA m.tags tag with
  | none => m
  | some entities =>
    match jsIndexOf entities r with
    | none => m
    | some index =>
      let e := getE m r
      { setE m r { e with tags := spliceAtIdxOf e.tags tag } with
          tags := updA m.tags tag (entities.eraseIdx index) }

/-- `entityAddComponent` (src/unnamed/part_000 lines 149-176). The type is
pushed onto `_Components` BEFORE the property name is derived, so the
empty-name throw escapes with that push already applied. The constructed
instance is modelled by its constructor's `cid`; `args` do not affect any
observable state in the model. -/
def entityAddComponent (m : Manager) (r : Nat) (component : CompType) : OpResult :=
  let e := getE m r
  if e.comps.contains component then
    ⟨m, [], none⟩
  else
    let e1 := { e with comps := e.comps ++ [component] }
    let mA := setE m r e1
    match componentPropertyName component m.camelCase with
    | none =>
      ⟨mA, [], some "Component property name is empty, try naming your component function"⟩
    | some cName =>
      let e2 := { e1 with props := setKey e1.props cName component.cid }
      let mB := setE mA r e2
      let groups2 := mB.groups.map (fun kg =>
        let group := kg.2
        if !(group.Components.contains component) then
          kg
        else if !(hasAllComponents e2 group.Components) then
          kg
        else if group.entities.contains r then
          kg
        else
          (kg.1, { group with entities := group.entities ++ [r] }))
      ⟨{ mB with groups := groups2 }, [Ev.added r component], none⟩

/-- `entityRemoveComponent` (src/unnamed/part_000 lines 192-215): emits
first, updates groups, then derives the property name (which may throw,
leaving the emission and group updates applied), then splices the
`_Components` entry and deletes the property. -/
def entityRemoveComponent (m : Manager) (r : Nat) (Component : CompType) : OpResult :=
  let e := getE m r
  match jsIndexOf e.comps Component with
  | none => ⟨m, [], none⟩
  | some index =>
    let groups2 := m.groups.map (fun kg =>
      let group := kg.2
      if !(group.Components.contains Component) then
        kg
      else if !(hasAllComponents e group.Components) then
        kg
      else
        (kg.1, { group with entities := group.entities.erase r }))
    let m1 := { m with groups := groups2 }
    match componentPropertyName Component m.camelCase with
    | none =>
      ⟨m1, [Ev.removed r Component],
        some "Component property name is empty, try naming your component function"⟩
    | some propName =>
      let e3 := { e with comps := e.comps.eraseIdx index,
                         props := removeKey e.props propName }
      ⟨setE m1 r e3, [Ev.removed r Component], none⟩

/-- Loop body of `entityRemoveAllComponents` (src/unnamed/part_000 lines
181-187): `for (j = Cs.length - 1; j >= 0; j--) removeComponent(Cs[j])`
over the live `_Components` array; an out-of-range read yields `undefined`,
whose removal is a no-op. -/
def entityRemoveAllComponentsAux (m : Manager) (r : Nat) : Nat → OpResult
  | 0 => ⟨m, [], none⟩
  | j + 1 =>
    match (getE m r).comps.get? j with
    | none => entityRemoveAllComponentsAux m r j
    | some C =>
      let s := entityRemoveComponent m r C
      match s.err with
      | some e => ⟨s.m, s.tr, some e⟩
      | none =>
        let s2 := entityRemoveAllComponentsAux s.m r j
        ⟨s2.m, s.tr ++ s2.tr, s2.err⟩

/-- `entityRemoveAllComponents` (src/unnamed/part_000 lines 181-187). -/
def entityRemoveAllComponents (m : Manager) (r : Nat) : OpResult :=
  entityRemoveAllComponentsAux m r (getE m r).comps.length

/-- `removeEntity` (src/unnamed/part_000 lines 91-112). `removeAllListeners`
and the `_manager = null` severing concern unmodelled facade state. -/
def removeEntity (m : Manager) (r : Nat) : OpResult :=
  match jsIndexOf m.entities r with
  | none => ⟨m, [], some "Tried to remove entity not in list"⟩
  | some index =>
    let s := entityRemoveAllComponents m r
    match s.err with
    | some e => ⟨s.m, s.tr, some e⟩
    | none =>
      let m1 := s.m
      let m2 := { m1 with entities := m1.entities.eraseIdx index }
      let e := getE m2 r
      let m3 := setE m2 r { e with tags := [] }
      let m4 := { m3 with tags := m3.tags.map (fun (p : String × List Nat) => (p.1, p.2.erase r)) }
      let m5 := { m4 with pool := r :: m4.pool }
      ⟨m5, s.tr, none⟩

/-- Loop of `removeEntitiesByTag` (src/unnamed/part_000 lines 69-77):
`for (x = entities.length - 1; x >= 0; x--) entities[x].remove()` over the
live tag list (the captured array reference is only ever mutated in place,
so re-reading the map is equivalent). An out-of-range read gives
`undefined`, whose `remove()` call fails. -/
def removeEntitiesByTagAux (m : Manager) (tag : String) : Nat → OpResult
  | 0 => ⟨m, [], none⟩
  | x + 1 =>
    match ((lookupA m.tags tag).getD []).get? x with
    | none => ⟨m, [], some "Tried to remove entity not in list"⟩
    | some r =>
      let s := removeEntity m r
      match s.err with
      | some e => ⟨s.m, s.tr, some e⟩
      | none =>
        let s2 := removeEntitiesByTagAux s.m tag x
        ⟨s2.m, s.tr ++ s2.tr, s2.err⟩

/-- `removeEntitiesByTag` (src/unnamed/part_000 lines 69-77). -/
def removeEntitiesByTag (m : Manager) (tag : String) : OpResult :=
  match lookupA m.tags tag with
  | none => ⟨m, [], none⟩
  | some entities => removeEntitiesByTagAux m tag entities.length

/-- Loop of `removeAllEntities` (src/unnamed/part_000 lines 81-85). -/
def removeAllEntitiesAux (m : Manager) : Nat → OpResult
  | 0 => ⟨m, [], none⟩
  | x + 1 =>
    match m.entities.get? x with
    | none => ⟨m, [], some "Tried to remove entity not in list"⟩
    | some r =>
      let s := removeEntity m r
      match s.err with
      | some e => ⟨s.m, s.tr, some e⟩
      | none =>
        let s2 := removeAllEntitiesAux s.m x
        ⟨s2.m, s.tr ++ s2.tr, s2.err⟩

/-- `removeAllEntities` (src/unnamed/part_000 lines 81-85). -/
def removeAllEntities (m : Manager) : OpResult :=
  removeAllEntitiesAux m m.entities.length

/-- `_indexGroup` (src/unnamed/part_000 lines 251-263): returns the freshly
created group, or `none` for the JS `undefined` early return when the group
already exists (unreachable from `queryComponents`). -/
def indexGroup (m : Manager) (Components : List CompType) : Manager × Option CompGroup :=
  let key := groupKey Components
  match lookupA m.groups key with
  | some _ => (m, none)
  | none =>
    let group : CompGroup :=
      { Components := Components,
        entities := m.entities.filter (fun r => hasAllComponents (getE m r) Components) }
    ({ m with groups := m.groups ++ [(key, group)] }, some group)

/-- `queryComponents` (src/unnamed/part_000 lines 221-227): returns the live
backing `entities` list of the (possibly newly indexed) group. -/
def queryComponents (m : Manager) (Components : List CompType) : Manager × List Nat :=
  match lookupA m.groups (groupKey Components) with
  | some group => (m, group.entities)
  | none =>
    let p := indexGroup m Components
    (p.1, ((p.2.map CompGroup.entities).getD []))

/-- `queryTag` (src/unnamed/part_000 lines 233-239). -/
def queryTag (m : Manager) (tag : String) : Manager × List Nat :=
  match lookupA m.tags tag with
  | some entities => (m, entities)
  | none => ({ m with tags := m.tags ++ [(tag, [])] }, [])

/-- `count` (src/unnamed/part_000 lines 243-245). -/
def count (m : Manager) : Nat :=
  m.entities.length

end Part0

/-! ### part_001 EntityManager -/

namespace Part1

/-- `componentPropertyName` (src/unnamed/part_001 lines 307-316). -/
def componentPropertyName (Component : CompType) (camelCase : Bool) : Option String :=
  let name := Component.cname
  if name = "" then
    none
  else if !camelCase then
    some name
  else
    match name.data with
    | [] => some name
    | ch :: rest => some ⟨ch.toLower :: rest⟩

/-- `_groupKey` (src/unnamed/part_001 lines 271-287). -/
def groupKey (Components : List CompType) : String :=
  let names := Components.map (fun T => T.cname)
  String.intercalate "-" (jsSort (names.map jsToLower))

/-- The module export with the constructor's option merge
(src/unnamed/part_001 lines 1-3 and 15-54). -/
def mkManager (options : Option Bool) : Manager :=
  { tags := [], entities := [], groups := [], pool := [],
    camelCase := options.getD true, store := [], nextId := 0 }

/-- `createEntity` (src/unnamed/part_001 lines 59-64), with the same pool
collaborator model as `Part0.createEntity`. -/
def createEntity (m : Manager) : Manager × Nat :=
  match m.pool with
  | r :: rest =>
    let e := getE m r
    let e2 := { e with eid := m.nextId, comps := [], tags := [] }
    let m1 := { m with pool := rest, store := m.store.set r e2, nextId := m.nextId + 1 }
    ({ m1 with entities := m1.entities ++ [r] }, r)
  | [] =>
    let r := m.store.length
    let e : EntityData := { eid := m.nextId, tags := [], comps := [], props := [] }
    let m1 := { m with store := m.store ++ [e], nextId := m.nextId + 1 }
    ({ m1 with entities := m1.entities ++ [r] }, r)

/-- `entityAddTag` (src/unnamed/part_001 lines 117-129). -/
def entityAddTag (m : Manager) (r : Nat) (tag : String) : Manager :=
  match lookupA m.tags tag with
  | none =>
    let e := getE m r
    { setE m r { e with tags := e.tags ++ [tag] } with tags := m.tags ++ [(tag, [r])] }
  | some entities =>
    if entities.contains r then
      m
    else
      let e := getE m r
      { setE m r { e with tags := e.tags ++ [tag] } with
          tags := updA m.tags tag (entities ++ [r]) }

/-- `entityRemoveTag` (src/unnamed/part_001 lines 134-145). -/
def entityRemoveTag (m : Manager) (r : Nat) (tag : String) : Manager :=
  match lookupA m.tags tag with
  | none => m
  | some entities =>
    match jsIndexOf entities r with
    | none => m
    | some index =>
      let e := getE m r
      { setE m r { e with tags := spliceAtIdxOf e.tags tag } with
          tags := updA m.tags tag (entities.eraseIdx index) }

/-- `entityAddComponent` (src/unnamed/part_001 lines 151-178). -/
def entityAddComponent (m : Manager) (r : Nat) (component : CompType) : OpResult :=
  let e := getE m r
  if e.comps.contains component then
    ⟨m, [], none⟩
  else
    let e1 := { e with comps := e.comps ++ [component] }
    let mA := setE m r e1
    match componentPropertyName component m.camelCase with
    | none =>
      ⟨mA, [], some "Component property name is empty, try naming your component function"⟩
    | some cName =>
      let e2 := { e1 with props := setKey e1.props cName component.cid }
      let mB := setE mA r e2
      let groups2 := mB.groups.map (fun kg =>
        let group := kg.2
        if !(group.Components.contains component) then
          kg
        else if !(hasAllComponents e2 group.Components) then
          kg
        else if group.entities.contains r then
          kg
        else
          (kg.1, { group with entities := group.entities ++ [r] }))
      ⟨{ mB with groups := groups2 }, [Ev.added r component], none⟩

/-- `entityRemoveComponent` (src/unnamed/part_001 lines 194-217). -/
def entityRemoveComponent (m : Manager) (r : Nat) (Component : CompType) : OpResult :=
  let e := getE m r
  match jsIndexOf e.comps Component with
  | none => ⟨m, [], none⟩
  | some index =>
    let groups2 := m.groups.map (fun kg =>
      let group := kg.2
      if !(group.Components.contains Component) then
        kg
      else if !(hasAllComponents e group.Components) then
        kg
      else
        (kg.1, { group with entities := group.entities.erase r }))
    let m1 := { m with groups := groups2 }
    match componentPropertyName Component m.camelCase with
    | none =>
      ⟨m1, [Ev.removed r Component],
        some "Component property name is empty, try naming your component function"⟩
    | some propName =>
      let e3 := { e with comps := e.comps.eraseIdx index,
                         props := removeKey e.props propName }
      ⟨setE m1 r e3, [Ev.removed r Component], none⟩

/-- Loop body of `entityRemoveAllComponents` (src/unnamed/part_001 lines
183-189). -/
def entityRemoveAllComponentsAux (m : Manager) (r : Nat) : Nat → OpResult
  | 0 => ⟨m, [], none⟩
  | i + 1 =>
    match (getE m r).comps.get? i with
    | none => entityRemoveAllComponentsAux m r i
    | some component =>
      let s := entityRemoveComponent m r component
      match s.err with
      | some e => ⟨s.m, s.tr, some e⟩
      | none =>
        let s2 := entityRemoveAllComponentsAux s.m r i
        ⟨s2.m, s.tr ++ s2.tr, s2.err⟩

/-- `entityRemoveAllComponents` (src/unnamed/part_001 lines 183-189). -/
def entityRemoveAllComponents (m : Manager) (r : Nat) : OpResult :=
  entityRemoveAllComponentsAux m r (getE m r).comps.length

/-- `removeEntity` (src/unnamed/part_001 lines 91-112). -/
def removeEntity (m : Manager) (r : Nat) : OpResult :=
  match jsIndexOf m.entities r with
  | none => ⟨m, [], some "Tried to remove entity not in list"⟩
  | some index =>
    let s := entityRemoveAllComponents m r
    match s.err with
    | some e => ⟨s.m, s.tr, some e⟩
    | none =>
      let m1 := s.m
      let m2 := { m1 with entities := m1.entities.eraseIdx index }
      let e := getE m2 r
      let m3 := setE m2 r { e with tags := [] }
      let m4 := { m3 with tags := m3.tags.map (fun (p : String × List Nat) => (p.1, p.2.erase r)) }
      let m5 := { m4 with pool := r :: m4.pool }
      ⟨m5, s.tr, none⟩

/-- Loop of `removeEntitiesByTag` (src/unnamed/part_001 lines 69-77). -/
def removeEntitiesByTagAux (m : Manager) (tag : String) : Nat → OpResult
  | 0 => ⟨m, [], none⟩
  | x + 1 =>
    match ((lookupA m.tags tag).getD []).get? x with
    | none => ⟨m, [], some "Tried to remove entity not in list"⟩
    | some r =>
      let s := removeEntity m r
      match s.err with
      | some e => ⟨s.m, s.tr, some e⟩
      | none =>
        let s2 := removeEntitiesByTagAux s.m tag x
        ⟨s2.m, s.tr ++ s2.tr, s2.err⟩

/-- `removeEntitiesByTag` (src/unnamed/part_001 lines 69-77). -/
def removeEntitiesByTag (m : Manager) (tag : String) : OpResult :=
  match lookupA m.tags tag with
  | none => ⟨m, [], none⟩
  | some entities => removeEntitiesByTagAux m tag entities.length

/-- Loop of `removeAllEntities` (src/unnamed/part_001 lines 81-85). -/
def removeAllEntitiesAux (m : Manager) : Nat → OpResult
  | 0 => ⟨m, [], none⟩
  | x + 1 =>
    match m.entities.get? x with
    | none => ⟨m, [], some "Tried to remove entity not in list"⟩
    | some r =>
      let s := removeEntity m r
      match s.err with
      | some e => ⟨s.m, s.tr, some e⟩
      | none =>
        let s2 := removeAllEntitiesAux s.m x
        ⟨s2.m, s.tr ++ s2.tr, s2.err⟩

/-- `removeAllEntities` (src/unnamed/part_001 lines 81-85). -/
def removeAllEntities (m : Manager) : OpResult :=
  removeAllEntitiesAux m m.entities.length

/-- `_indexGroup` (src/unnamed/part_001 lines 253-265). -/
def indexGroup (m : Manager) (Components : List CompType) : Manager × Option CompGroup :=
  let key := groupKey Components
  match lookupA m.groups key with
  | some _ => (m, none)
  | none =>
    let group : CompGroup :=
      { Components := Components,
        entities := m.entities.filter (fun r => hasAllComponents (getE m r) Components) }
    ({ m with groups := m.groups ++ [(key, group)] }, some group)

/-- `queryComponents` (src/unnamed/part_001 lines 223-229). -/
def queryComponents (m : Manager) (Components : List CompType) : Manager × List Nat :=
  match lookupA m.groups (groupKey Components) with
  | some group => (m, group.entities)
  | none =>
    let p := indexGroup m Components
    (p.1, ((p.2.map CompGroup.entities).getD []))

/-- `queryTag` (src/unnamed/part_001 lines 235-241). -/
def queryTag (m : Manager) (tag : String) : Manager × List Nat :=
  match lookupA m.tags tag with
  | some entities => (m, entities)
  | none => ({ m with tags := m.tags ++ [(tag, [])] }, [])

/-- `count` (src/unnamed/part_001 lines 245-247). -/
def count (m : Manager) : Nat :=
  m.entities.length

end Part1

/-! ### Operation sequences over the part_000 manager -/

/-- One public mutating/query call of the `EntityManager`, with entities
referred to by their allocation handles. -/
inductive Op where
  | create
  | remove (r : Nat)
  | addC (r : Nat) (c : CompType)
  | removeC (r : Nat) (c : CompType)
  | query (S : List CompType)
deriving DecidableEq, Repr

/-- The state after one call (ignoring return values and escaped errors;
an error's partial mutations stay applied, as for a caught JS exception). -/
def applyOp (m : Manager) : Op → Manager
  | .create => (Part0.createEntity m).1
  | .remove r => (Part0.removeEntity m r).m
  | .addC r c => (Part0.entityAddComponent m r c).m
  | .removeC r c => (Part0.entityRemoveComponent m r c).m
  | .query S => (Part0.queryComponents m S).1

def runOps (m : Manager) : List Op → Manager
  | [] => m
  | op :: rest => runOps (applyOp m op) rest

/-- Caller discipline for an operation sequence: component operations only
touch currently-live entities, attached component types are nameable, and
queries name at least one component type. -/
def opsOKb (m : Manager) : List Op → Bool
  | [] => true
  | op :: rest =>
    (match op with
     | .create => true
     | .remove _ => true
     | .addC r c => m.entities.contains r && !(c.cname == "")
     | .removeC r _ => m.entities.contains r
     | .query S => !S.isEmpty) && opsOKb (applyOp m op) rest

/-- The component-type arrays passed to the queries of a sequence. -/
def qargs : List Op → List (List CompType)
  | [] => []
  | .query S :: rest => S :: qargs rest
  | _ :: rest => qargs rest

/-- Two component-type arrays listing the same set. -/
def sameSetb (S1 S2 : List CompType) : Bool :=
  S1.all (fun c => S2.contains c) && S2.all (fun c => S1.contains c)

/-- Group keys separate the query sets in play: equal keys only for arrays
listing the same component-type set. (Distinct component types sharing a
case-insensitive name, or names that make the joined key ambiguous, violate
this; the spec leaves such collisions an open correctness gap.) -/
def keysOKb (L : List (List CompType)) : Bool :=
  L.all (fun S1 => L.all (fun S2 =>
    (Part0.groupKey S1 != Part0.groupKey S2) || sameSetb S1 S2))

/-- The representation invariant of a `Part0` manager: live handles are
in-range and duplicate-free, the pool holds no live entity, tag lists hold
live entities without duplicates, live entities carry duplicate-free lists
of nameable component types, and every indexed group is keyed by its
component set, names at least one component type, and lists exactly the
live entities holding all its components. (A group over the empty set and
an entity whose attachment raised break this; see the C1 and C2 records.) -/
abbrev Wf (m : Manager) : Prop :=
  m.entities.Nodup ∧
  (∀ r ∈ m.entities, r < m.store.length) ∧
  m.pool.Nodup ∧
  (∀ r ∈ m.pool, r < m.store.length) ∧
  (∀ r ∈ m.pool, r ∉ m.entities) ∧
  (∀ p ∈ m.tags, (p.2 : List Nat).Nodup) ∧
  (∀ p ∈ m.tags, ∀ r ∈ p.2, r ∈ m.entities) ∧
  (∀ r ∈ m.entities, (getE m r).comps.Nodup) ∧
  (∀ r ∈ m.entities, ∀ c ∈ (getE m r).comps, ¬(c.cname = "")) ∧
  (∀ kg ∈ m.groups, kg.1 = Part0.groupKey kg.2.Components) ∧
  (∀ kg ∈ m.groups, ¬(kg.2.Components = [])) ∧
  (∀ kg ∈ m.groups, kg.2.entities.Nodup) ∧
  (∀ kg ∈ m.groups, ∀ r ∈ kg.2.entities,
    r ∈ m.entities ∧ hasAllComponents (getE m r) kg.2.Components = true) ∧
  (∀ kg ∈ m.groups, ∀ r ∈ m.entities,
    hasAllComponents (getE m r) kg.2.Components = true → r ∈ kg.2.entities)

/-! ### Helper lemmas: jsIndexOf, contains, lookupA, getE/setE -/

theorem contains_iff_mem {α : Type} [DecidableEq α] {l : List α} {a : α} :
    l.contains a = true ↔ a ∈ l :=
  List.elem_iff

theorem contains_eq_false {α : Type} [DecidableEq α] {l : List α} {a : α} (h : a ∉ l) :
    l.contains a = false := by
  rcases Bool.eq_false_or_eq_true (l.contains a) with h1 | h1
  · exact absurd (contains_iff_mem.mp h1) h
  · exact h1

theorem not_mem_of_contains_false {α : Type} [DecidableEq α] {l : List α} {a : α}
    (h : l.contains a = false) : a ∉ l := by
  intro hm
  rw [contains_iff_mem.mpr hm] at h
  exact Bool.noConfusion h

theorem jsIndexOf_eq_none {α : Type} [DecidableEq α] {l : List α} {a : α} (h : a ∉ l) :
    jsIndexOf l a = none := by
  induction l with
  | nil => rfl
  | cons b rest ih =>
    simp only [jsIndexOf]
    rw [if_neg (by rintro rfl; exact h (List.mem_cons_self b rest))]
    rw [ih (fun hm => h (List.mem_cons_of_mem b hm))]
    rfl

theorem jsIndexOf_of_mem {α : Type} [DecidableEq α] {l : List α} {a : α} (h : a ∈ l) :
    ∃ i, jsIndexOf l a = some i := by
  induction l with
  | nil => cases h
  | cons b rest ih =>
    simp only [jsIndexOf]
    by_cases hb : b = a
    · exact ⟨0, by rw [if_pos hb]⟩
    · rcases ih (by rcases List.mem_cons.mp h with h1 | h1; exact absurd h1.symm hb; exact h1) with ⟨i, hi⟩
      exact ⟨i + 1, by rw [if_neg hb, hi]; rfl⟩

theorem jsIndexOf_eraseIdx {α : Type} [DecidableEq α] {l : List α} {a : α} {i : Nat}
    (h : jsIndexOf l a = some i) : l.eraseIdx i = l.erase a := by
  induction l generalizing i with
  | nil => cases h
  | cons b rest ih =>
    simp only [jsIndexOf] at h
    by_cases hb : b = a
    · rw [if_pos hb] at h
      cases h
      simp [List.eraseIdx, List.erase, hb]
    · rw [if_neg hb] at h
      cases hi : jsIndexOf rest a with
      | none => rw [hi] at h; cases h
      | some j =>
        rw [hi] at h
        simp at h
        subst h
        have hba : (b == a) = false := by simp [hb]
        simp [List.eraseIdx, List.erase, hba, ih hi]

theorem lookupA_append_of_none {β : Type} {l1 l2 : List (String × β)} {k : String}
    (h : lookupA l1 k = none) : lookupA (l1 ++ l2) k = lookupA l2 k := by
  induction l1 with
  | nil => rfl
  | cons p rest ih =>
    simp only [lookupA] at h ⊢
    by_cases hp : p.1 = k
    · rw [if_pos hp] at h; cases h
    · rw [if_neg hp] at h ⊢
      exact ih h

theorem lookupA_append_of_some {β : Type} {l1 l2 : List (String × β)} {k : String} {v : β}
    (h : lookupA l1 k = some v) : lookupA (l1 ++ l2) k = some v := by
  induction l1 with
  | nil => cases h
  | cons p rest ih =>
    simp only [lookupA] at h ⊢
    by_cases hp : p.1 = k
    · rw [if_pos hp] at h ⊢; exact h
    · rw [if_neg hp] at h ⊢
      exact ih h

theorem lookupA_map_val {β γ : Type} (l : List (String × β)) (g : β → γ) (k : String) :
    lookupA (l.map (fun p => (p.1, g p.2))) k = (lookupA l k).map g := by
  induction l with
  | nil => rfl
  | cons p rest ih =>
    simp only [List.map, lookupA]
    by_cases hp : p.1 = k
    · rw [if_pos hp, if_pos hp]
      rfl
    · rw [if_neg hp, if_neg hp]
      exact ih

theorem lookupA_updA_self {β : Type} (l : List (String × β)) (k : String) (v : β) :
    lookupA (updA l k v) k = (lookupA l k).map (fun _ => v) := by
  induction l with
  | nil => rfl
  | cons p rest ih =>
    simp only [updA, List.map, lookupA]
    by_cases hp : p.1 = k
    · rw [if_pos hp]
      simp only [lookupA, if_pos rfl, if_pos hp]
      rfl
    · rw [if_neg hp]
      simp only [lookupA, if_neg hp]
      exact ih

theorem updA_cons {β : Type} (p : String × β) (rest : List (String × β)) (k : String) (v : β) :
    updA (p :: rest) k v = (if p.1 = k then (k, v) else p) :: updA rest k v := rfl

theorem lookupA_updA_other {β : Type} (l : List (String × β)) (k k2 : String) (v : β)
    (h : ¬(k2 = k)) : lookupA (updA l k v) k2 = lookupA l k2 := by
  induction l with
  | nil => rfl
  | cons p rest ih =>
    rw [updA_cons]
    by_cases hp : p.1 = k
    · rw [if_pos hp]
      show (if k = k2 then some v else lookupA (updA rest k v) k2) = _
      rw [if_neg (fun hh : k = k2 => h hh.symm)]
      show _ = (if p.1 = k2 then some p.2 else lookupA rest k2)
      rw [if_neg (fun hh : p.1 = k2 => h ((hp.symm.trans hh).symm))]
      exact ih
    · rw [if_neg hp]
      show (if p.1 = k2 then some p.2 else lookupA (updA rest k v) k2)
        = (if p.1 = k2 then some p.2 else lookupA rest k2)
      by_cases hpk : p.1 = k2
      · rw [if_pos hpk, if_pos hpk]
      · rw [if_neg hpk, if_neg hpk]
        exact ih

theorem lookupA_mem {β : Type} {l : List (String × β)} {k : String} {v : β}
    (h : lookupA l k = some v) : (k, v) ∈ l := by
  induction l with
  | nil => cases h
  | cons p rest ih =>
    simp only [lookupA] at h
    by_cases hp : p.1 = k
    · rw [if_pos hp] at h
      cases h
      have : p = (k, p.2) := by
        cases p
        simp_all
      rw [← this]
      exact List.mem_cons_self p rest
    · rw [if_neg hp] at h
      exact List.mem_cons_of_mem _ (ih h)

theorem removeKey_cons (p : String × Nat) (rest : List (String × Nat)) (k : String) :
    removeKey (p :: rest) k
      = if p.1 != k then p :: removeKey rest k else removeKey rest k := by
  simp only [removeKey, List.filter]
  by_cases hp : (p.1 != k) = true
  · rw [hp]
    rw [if_pos rfl]
  · rw [Bool.eq_false_iff.mpr hp]
    rw [if_neg (by simp)]

theorem lookupA_removeKey (l : List (String × Nat)) (k : String) :
    lookupA (removeKey l k) k = none := by
  induction l with
  | nil => rfl
  | cons p rest ih =>
    rw [removeKey_cons]
    by_cases hp : p.1 = k
    · rw [if_neg (by simp [hp])]
      exact ih
    · rw [if_pos (by simp [hp])]
      show (if p.1 = k then some p.2 else lookupA (removeKey rest k) k) = none
      rw [if_neg hp]
      exact ih

theorem getE_setE_same {m : Manager} {r : Nat} (e : EntityData) (h : r < m.store.length) :
    getE (setE m r e) r = e := by
  simp only [getE, setE]
  rw [List.getD_eq_get?]
  rw [List.get?_set_eq]
  rw [List.get?_eq_get h]
  rfl

theorem getE_setE_other {m : Manager} {r r2 : Nat} (e : EntityData) (h : ¬(r2 = r)) :
    getE (setE m r e) r2 = getE m r2 := by
  simp only [getE, setE]
  rw [List.getD_eq_get?, List.getD_eq_get?]
  rw [List.get?_set_ne _ _ (fun hh => h hh.symm)]

theorem setE_store_length (m : Manager) (r : Nat) (e : EntityData) :
    (setE m r e).store.length = m.store.length := by
  simp [setE]

/-! ### part_000 / part_001 equivalence lemmas -/

theorem part01_entityRemoveComponent :
    Part0.entityRemoveComponent = Part1.entityRemoveComponent := rfl

theorem part01_entityRemoveAllComponentsAux :
    Part0.entityRemoveAllComponentsAux = Part1.entityRemoveAllComponentsAux := by
  funext m r j
  induction j generalizing m with
  | zero => rfl
  | succ j ih =>
    cases hget : (getE m r).comps.get? j with
    | none =>
      simp only [Part0.entityRemoveAllComponentsAux, Part1.entityRemoveAllComponentsAux, hget]
      exact ih m
    | some C =>
      simp only [Part0.entityRemoveAllComponentsAux, Part1.entityRemoveAllComponentsAux, hget]
      rw [← part01_entityRemoveComponent]
      cases hs : (Part0.entityRemoveComponent m r C).err with
      | some e => simp only [hs]
      | none =>
        simp only [hs]
        rw [ih]

theorem part01_entityRemoveAllComponents :
    Part0.entityRemoveAllComponents = Part1.entityRemoveAllComponents := by
  funext m r
  simp only [Part0.entityRemoveAllComponents, Part1.entityRemoveAllComponents,
    part01_entityRemoveAllComponentsAux]

theorem part01_removeEntity : Part0.removeEntity = Part1.removeEntity := by
  funext m r
  simp only [Part0.removeEntity, Part1.removeEntity, part01_entityRemoveAllComponents]

theorem part01_removeEntitiesByTagAux :
    Part0.removeEntitiesByTagAux = Part1.removeEntitiesByTagAux := by
  funext m tag x
  induction x generalizing m with
  | zero => rfl
  | succ x ih =>
    cases hget : ((lookupA m.tags tag).getD []).get? x with
    | none =>
      simp only [Part0.removeEntitiesByTagAux, Part1.removeEntitiesByTagAux, hget]
    | some r =>
      simp only [Part0.removeEntitiesByTagAux, Part1.removeEntitiesByTagAux, hget]
      rw [← part01_removeEntity]
      cases hs : (Part0.removeEntity m r).err with
      | some e => simp only [hs]
      | none =>
        simp only [hs]
        rw [ih]

theorem part01_removeEntitiesByTag :
    Part0.removeEntitiesByTag = Part1.removeEntitiesByTag := by
  funext m tag
  simp only [Part0.removeEntitiesByTag, Part1.removeEntitiesByTag,
    part01_removeEntitiesByTagAux]

theorem part01_removeAllEntitiesAux :
    Part0.removeAllEntitiesAux = Part1.removeAllEntitiesAux := by
  funext m x
  induction x generalizing m with
  | zero => rfl
  | succ x ih =>
    cases hget : m.entities.get? x with
    | none =>
      simp only [Part0.removeAllEntitiesAux, Part1.removeAllEntitiesAux, hget]
    | some r =>
      simp only [Part0.removeAllEntitiesAux, Part1.removeAllEntitiesAux, hget]
      rw [← part01_removeEntity]
      cases hs : (Part0.removeEntity m r).err with
      | some e => simp only [hs]
      | none =>
        simp only [hs]
        rw [ih]

theorem part01_removeAllEntities : Part0.removeAllEntities = Part1.removeAllEntities := by
  funext m
  simp only [Part0.removeAllEntities, Part1.removeAllEntities, part01_removeAllEntitiesAux]

/-- C10: the two `EntityManager` implementations in src/unnamed/part_000 and
src/unnamed/part_001 are observationally equivalent: with the same options,
every public operation is the same function of the manager state — same
return value, same notifications, same error behaviour, same post-state —
so equal operation sequences from equal fresh managers stay equal. -/
theorem part000_part001_equivalent :
    Part0.mkManager = Part1.mkManager ∧
    Part0.createEntity = Part1.createEntity ∧
    Part0.entityAddTag = Part1.entityAddTag ∧
    Part0.entityRemoveTag = Part1.entityRemoveTag ∧
    Part0.entityAddComponent = Part1.entityAddComponent ∧
    Part0.entityRemoveComponent = Part1.entityRemoveComponent ∧
    Part0.entityRemoveAllComponents = Part1.entityRemoveAllComponents ∧
    Part0.removeEntity = Part1.removeEntity ∧
    Part0.removeEntitiesByTag = Part1.removeEntitiesByTag ∧
    Part0.removeAllEntities = Part1.removeAllEntities ∧
    Part0.queryComponents = Part1.queryComponents ∧
    Part0.queryTag = Part1.queryTag ∧
    Part0.count = Part1.count :=
  ⟨rfl, rfl, rfl, rfl, rfl, part01_entityRemoveComponent,
    part01_entityRemoveAllComponents, part01_removeEntity, part01_removeEntitiesByTag,
    part01_removeAllEntities, rfl, rfl, rfl⟩

/-! ### Small operation lemmas -/

theorem groupKey_perm {S1 S2 : List CompType} (h : S1.Perm S2) :
    Part0.groupKey S1 = Part0.groupKey S2 := by
  simp only [Part0.groupKey]
  congr 1
  exact jsSort_perm_eq ((h.map _).map _)

theorem componentPropertyName_isSome {c : CompType} (cc : Bool) (h : ¬(c.cname = "")) :
    ∃ cn, Part0.componentPropertyName c cc = some cn := by
  simp only [Part0.componentPropertyName]
  rw [if_neg h]
  cases cc with
  | false => exact ⟨c.cname, rfl⟩
  | true =>
    cases hd : c.cname.data with
    | nil => exact ⟨c.cname, by simp [hd]⟩
    | cons ch rest => exact ⟨⟨ch.toLower :: rest⟩, by simp [hd]⟩

theorem componentPropertyName_none {c : CompType} (cc : Bool) (h : c.cname = "") :
    Part0.componentPropertyName c cc = none := by
  simp only [Part0.componentPropertyName]
  rw [if_pos h]

/-! ### C3: query order-insensitivity -/

/-- C3: `queryComponents` is order-insensitive in its input: for any manager
state, two arrays listing the same component-type set in different orders
produce the same group key, and querying with the second right after the
first changes nothing further and returns the very same backing entity list
(the list of the one group stored under that key). -/
theorem queryComponents_order_insensitive (m : Manager) (S1 S2 : List CompType)
    (h : S1.Perm S2) :
    Part0.groupKey S1 = Part0.groupKey S2 ∧
    (Part0.queryComponents (Part0.queryComponents m S1).1 S2).1
      = (Part0.queryComponents m S1).1 ∧
    (Part0.queryComponents (Part0.queryComponents m S1).1 S2).2
      = (Part0.queryComponents m S1).2 := by
  have hkey : Part0.groupKey S1 = Part0.groupKey S2 := groupKey_perm h
  refine ⟨hkey, ?_⟩
  cases hl : lookupA m.groups (Part0.groupKey S1) with
  | some g =>
    simp only [Part0.queryComponents, hl, ← hkey]
    exact ⟨trivial, trivial⟩
  | none =>
    have happ : lookupA
        (m.groups ++ [(Part0.groupKey S1,
          (⟨S1, m.entities.filter (fun r => hasAllComponents (getE m r) S1)⟩ : CompGroup))])
        (Part0.groupKey S1)
        = some (⟨S1, m.entities.filter (fun r => hasAllComponents (getE m r) S1)⟩ : CompGroup) := by
      rw [lookupA_append_of_none hl]
      simp [lookupA]
    simp only [Part0.queryComponents, Part0.indexGroup, hl, ← hkey, happ]
    exact ⟨trivial, rfl⟩

def posC : CompType := ⟨0, "Position"⟩
def velC : CompType := ⟨1, "Velocity"⟩

/-- Witness for C3 at a concrete state: one entity carrying Position and
Velocity, queried with the two orders of the pair. -/
theorem queryComponents_order_insensitive_witness :
    Part0.groupKey [posC, velC] = Part0.groupKey [velC, posC] ∧
    (Part0.queryComponents
      (Part0.queryComponents
        (Part0.entityAddComponent
          ((Part0.entityAddComponent ((Part0.createEntity (Part0.mkManager none)).1) 0 posC).m)
          0 velC).m
        [posC, velC]).1 [velC, posC]).1
      = (Part0.queryComponents
        (Part0.entityAddComponent
          ((Part0.entityAddComponent ((Part0.createEntity (Part0.mkManager none)).1) 0 posC).m)
          0 velC).m
        [posC, velC]).1 ∧
    (Part0.queryComponents
      (Part0.queryComponents
        (Part0.entityAddComponent
          ((Part0.entityAddComponent ((Part0.createEntity (Part0.mkManager none)).1) 0 posC).m)
          0 velC).m
        [posC, velC]).1 [velC, posC]).2
      = (Part0.queryComponents
        (Part0.entityAddComponent
          ((Part0.entityAddComponent ((Part0.createEntity (Part0.mkManager none)).1) 0 posC).m)
          0 velC).m
        [posC, velC]).2 :=
  queryComponents_order_insensitive _ [posC, velC] [velC, posC] (by decide)

/-! ### C5 / C6: absent removals are no-ops, present additions are idempotent -/

/-- C5: when the entity does not hold the tag (neither in the tag index nor
in its local list) `entityRemoveTag` leaves the whole manager state
unchanged, and when the component type is not attached
`entityRemoveComponent` leaves the state unchanged and emits nothing. -/
theorem removeTag_removeComponent_absent_noop (m : Manager) (r : Nat) (t : String)
    (c : CompType)
    (hidx : ((lookupA m.tags t).getD []).contains r = false)
    (hloc : (getE m r).tags.contains t = false)
    (hc : (getE m r).comps.contains c = false) :
    Part0.entityRemoveTag m r t = m ∧
    Part0.entityRemoveComponent m r c = ⟨m, [], none⟩ := by
  constructor
  · simp only [Part0.entityRemoveTag]
    cases hl : lookupA m.tags t with
    | none => simp only [hl]
    | some l =>
      rw [hl] at hidx
      simp only [Option.getD_some] at hidx
      simp only [hl, jsIndexOf_eq_none (not_mem_of_contains_false hidx)]
  · simp only [Part0.entityRemoveComponent,
      jsIndexOf_eq_none (not_mem_of_contains_false hc)]

/-- Witness for C5: a manager with one tagged entity, removing a tag it does
not hold and a component it does not carry. -/
theorem removeTag_removeComponent_absent_noop_witness :
    Part0.entityRemoveTag
        (Part0.entityAddTag ((Part0.createEntity (Part0.mkManager none)).1) 0 "player")
        0 "enemy"
      = Part0.entityAddTag ((Part0.createEntity (Part0.mkManager none)).1) 0 "player" ∧
    Part0.entityRemoveComponent
        (Part0.entityAddTag ((Part0.createEntity (Part0.mkManager none)).1) 0 "player")
        0 velC
      = ⟨Part0.entityAddTag ((Part0.createEntity (Part0.mkManager none)).1) 0 "player",
          [], none⟩ :=
  removeTag_removeComponent_absent_noop _ 0 "enemy" velC (by decide) (by decide) (by decide)

/-- C6: when the entity already holds the tag, `entityAddTag` leaves the
whole manager state unchanged (so no index entry is duplicated and the
local tag list keeps its length), and when the component type is already
attached `entityAddComponent` leaves the state unchanged, constructs no
instance and emits nothing. -/
theorem addTag_addComponent_present_idempotent (m : Manager) (r : Nat) (t : String)
    (c : CompType)
    (hidx : ((lookupA m.tags t).getD []).contains r = true)
    (hc : (getE m r).comps.contains c = true) :
    Part0.entityAddTag m r t = m ∧
    Part0.entityAddComponent m r c = ⟨m, [], none⟩ := by
  constructor
  · simp only [Part0.entityAddTag]
    cases hl : lookupA m.tags t with
    | none =>
      rw [hl] at hidx
      simp at hidx
    | some l =>
      rw [hl] at hidx
      simp only [Option.getD_some] at hidx
      simp only [hl, hidx]
      rw [if_pos trivial]
  · simp only [Part0.entityAddComponent, hc]
    rfl

/-- Witness for C6: re-adding the held tag and the attached component. -/
theorem addTag_addComponent_present_idempotent_witness :
    Part0.entityAddTag
        (Part0.entityAddTag
          ((Part0.entityAddComponent ((Part0.createEntity (Part0.mkManager none)).1) 0 posC).m)
          0 "player")
        0 "player"
      = Part0.entityAddTag
          ((Part0.entityAddComponent ((Part0.createEntity (Part0.mkManager none)).1) 0 posC).m)
          0 "player" ∧
    Part0.entityAddComponent
        (Part0.entityAddTag
          ((Part0.entityAddComponent ((Part0.createEntity (Part0.mkManager none)).1) 0 posC).m)
          0 "player")
        0 posC
      = ⟨Part0.entityAddTag
          ((Part0.entityAddComponent ((Part0.createEntity (Part0.mkManager none)).1) 0 posC).m)
          0 "player", [], none⟩ :=
  addTag_addComponent_present_idempotent _ 0 "player" posC (by decide) (by decide)

/-! ### C2: atomicity of raising operations -/

/-- An anonymous component constructor: `getName` derives the empty name. -/
def anonC : CompType := ⟨5, ""⟩

/-- Counterexample to C2 as stated: from a reachable state (a fresh manager
after one `createEntity`), `entityAddComponent` with a component whose
derived name is empty raises, yet the observable state after the raise
differs from the state before the call — the entity's component-type list
has gained the unnameable type. -/
theorem addComponent_raises_after_mutating :
    (Part0.entityAddComponent ((Part0.createEntity (Part0.mkManager none)).1) 0 anonC).err
        = some "Component property name is empty, try naming your component function" ∧
    ¬((Part0.entityAddComponent ((Part0.createEntity (Part0.mkManager none)).1) 0 anonC).m
        = (Part0.createEntity (Part0.mkManager none)).1) ∧
    (getE (Part0.entityAddComponent
        ((Part0.createEntity (Part0.mkManager none)).1) 0 anonC).m 0).comps = [anonC] := by
  refine ⟨by decide, by decide, by decide⟩

/-- C2 amended: `removeEntity` on an untracked entity raises before any
mutation, but `entityAddComponent` with an unnameable component type raises
only AFTER appending the type to the entity's component-type list; the rest
of the state (index structures, properties, other entities) is untouched
and no notification is emitted. -/
theorem addComponent_unnameable_partial (m : Manager) (r : Nat) (c : CompType)
    (hc : (getE m r).comps.contains c = false) (hn : c.cname = "") :
    (Part0.entityAddComponent m r c).err.isSome = true ∧
    (Part0.entityAddComponent m r c).tr = [] ∧
    (Part0.entityAddComponent m r c).m
      = setE m r { getE m r with comps := (getE m r).comps ++ [c] } ∧
    (∀ r2, r2 ∉ m.entities →
      Part0.removeEntity m r2 = ⟨m, [], some "Tried to remove entity not in list"⟩) := by
  have hrem : ∀ r2, r2 ∉ m.entities →
      Part0.removeEntity m r2 = ⟨m, [], some "Tried to remove entity not in list"⟩ := by
    intro r2 h2
    simp only [Part0.removeEntity]
    rw [jsIndexOf_eq_none h2]
  simp only [Part0.entityAddComponent, hc, componentPropertyName_none m.camelCase hn]
  exact ⟨rfl, rfl, rfl, hrem⟩

/-- Witness for the amended C2 at the concrete counterexample state. -/
theorem addComponent_unnameable_partial_witness :
    (Part0.entityAddComponent ((Part0.createEntity (Part0.mkManager none)).1) 0 anonC).err.isSome
        = true ∧
    (Part0.entityAddComponent ((Part0.createEntity (Part0.mkManager none)).1) 0 anonC).tr = [] ∧
    (Part0.entityAddComponent ((Part0.createEntity (Part0.mkManager none)).1) 0 anonC).m
      = setE ((Part0.createEntity (Part0.mkManager none)).1) 0
          { getE ((Part0.createEntity (Part0.mkManager none)).1) 0 with
              comps := (getE ((Part0.createEntity (Part0.mkManager none)).1) 0).comps ++ [anonC] } ∧
    (∀ r2, r2 ∉ ((Part0.createEntity (Part0.mkManager none)).1).entities →
      Part0.removeEntity ((Part0.createEntity (Part0.mkManager none)).1) r2
        = ⟨(Part0.createEntity (Part0.mkManager none)).1, [],
            some "Tried to remove entity not in list"⟩) :=
  addComponent_unnameable_partial _ 0 anonC (by decide) (by decide)

/-! ### C8: attach-then-detach notification protocol -/

theorem jsIndexOf_append_self {α : Type} [DecidableEq α] {l : List α} {a : α} (h : a ∉ l) :
    jsIndexOf (l ++ [a]) a = some l.length := by
  induction l with
  | nil => simp [jsIndexOf]
  | cons b rest ih =>
    have hb : ¬(b = a) := by rintro rfl; exact h (List.mem_cons_self _ _)
    have hm : a ∉ rest := fun hm => h (List.mem_cons_of_mem b hm)
    simp [jsIndexOf, hb, ih hm]

theorem eraseIdx_append_length {α : Type} (l : List α) (a : α) :
    (l ++ [a]).eraseIdx l.length = l := by
  induction l with
  | nil => rfl
  | cons b rest ih => simp [List.eraseIdx, ih]


/-! ### Explicit forms of the component operations, and C8 -/

theorem getD_set_same {α : Type} {l : List α} {r : Nat} (a d : α) (h : r < l.length) :
    (l.set r a).getD r d = a := by
  rw [List.getD_eq_get?, List.get?_set_eq, List.get?_eq_get h]
  rfl

theorem getD_set_other {α : Type} {l : List α} {r r2 : Nat} (a d : α) (h : ¬(r2 = r)) :
    (l.set r a).getD r2 d = l.getD r2 d := by
  rw [List.getD_eq_get?, List.getD_eq_get?, List.get?_set_ne _ _ (fun hh => h hh.symm)]

/-- The successful path of `entityAddComponent` in explicit form. -/
theorem entityAddComponent_fresh_eq (m : Manager) (r : Nat) (c : CompType) (cn : String)
    (hmem : (getE m r).comps.contains c = false)
    (hcn : Part0.componentPropertyName c m.camelCase = some cn) :
    Part0.entityAddComponent m r c =
      ⟨{ tags := m.tags,
         entities := m.entities,
         groups := m.groups.map (fun kg =>
           if !(kg.2.Components.contains c) then kg
           else if !(hasAllComponents
               { getE m r with
                   comps := (getE m r).comps ++ [c],
                   props := setKey (getE m r).props cn c.cid } kg.2.Components) then kg
           else if kg.2.entities.contains r then kg
           else (kg.1, { kg.2 with entities := kg.2.entities ++ [r] })),
         pool := m.pool,
         camelCase := m.camelCase,
         store := m.store.set r
           { getE m r with
               comps := (getE m r).comps ++ [c],
               props := setKey (getE m r).props cn c.cid },
         nextId := m.nextId },
        [Ev.added r c], none⟩ := by
  simp only [Part0.entityAddComponent, hmem, hcn, setE]
  simp [List.set_set]

/-- The successful path of `entityRemoveComponent` in explicit form. -/
theorem entityRemoveComponent_present_eq (m : Manager) (r : Nat) (c : CompType)
    (i : Nat) (pn : String)
    (hidx : jsIndexOf (getE m r).comps c = some i)
    (hpn : Part0.componentPropertyName c m.camelCase = some pn) :
    Part0.entityRemoveComponent m r c =
      ⟨{ tags := m.tags,
         entities := m.entities,
         groups := m.groups.map (fun kg =>
           if !(kg.2.Components.contains c) then kg
           else if !(hasAllComponents (getE m r) kg.2.Components) then kg
           else (kg.1, { kg.2 with entities := kg.2.entities.erase r })),
         pool := m.pool,
         camelCase := m.camelCase,
         store := m.store.set r
           { getE m r with
               comps := (getE m r).comps.eraseIdx i,
               props := removeKey (getE m r).props pn },
         nextId := m.nextId },
        [Ev.removed r c], none⟩ := by
  simp only [Part0.entityRemoveComponent, hidx, hpn, setE]

/-- C8: attaching a fresh component and immediately removing it emits
exactly one "component added" and then exactly one "component removed"
notification, in that order; afterwards the entity's property for that
component is absent; and "component added" is never emitted when the type
was already attached (that call is a silent no-op). The removal emits
before tearing down: `entityRemoveComponent`'s event precedes the list
splice and property delete in its successful path
(`entityRemoveComponent_present_eq` orders them explicitly). -/
theorem attach_then_detach_notifications (m : Manager) (r : Nat) (c : CompType)
    (hr : r < m.store.length)
    (hc : (getE m r).comps.contains c = false)
    (hn : ¬(c.cname = "")) :
    (Part0.entityAddComponent m r c).err = none ∧
    (Part0.entityAddComponent m r c).tr = [Ev.added r c] ∧
    (Part0.entityRemoveComponent (Part0.entityAddComponent m r c).m r c).err = none ∧
    (Part0.entityRemoveComponent (Part0.entityAddComponent m r c).m r c).tr
      = [Ev.removed r c] ∧
    (∀ cn, Part0.componentPropertyName c m.camelCase = some cn →
      lookupA (getE (Part0.entityRemoveComponent
        (Part0.entityAddComponent m r c).m r c).m r).props cn = none) ∧
    (∀ m2 r2 c2, (getE m2 r2).comps.contains c2 = true →
      Part0.entityAddComponent m2 r2 c2 = ⟨m2, [], none⟩) := by
  obtain ⟨cn, hcn⟩ := componentPropertyName_isSome m.camelCase hn
  have hlast : ∀ m2 r2 c2, (getE m2 r2).comps.contains c2 = true →
      Part0.entityAddComponent m2 r2 c2 = ⟨m2, [], none⟩ := by
    intro m2 r2 c2 h2
    simp only [Part0.entityAddComponent, h2]
    rfl
  have hmem : c ∉ (getE m r).comps := not_mem_of_contains_false hc
  rw [entityAddComponent_fresh_eq m r c cn hc hcn]
  refine ⟨rfl, rfl, ?_⟩
  set e2 : EntityData :=
    { getE m r with
        comps := (getE m r).comps ++ [c],
        props := setKey (getE m r).props cn c.cid } with he2
  set M1 : Manager :=
    { tags := m.tags,
      entities := m.entities,
      groups := m.groups.map (fun kg =>
        if !(kg.2.Components.contains c) then kg
        else if !(hasAllComponents e2 kg.2.Components) then kg
        else if kg.2.entities.contains r then kg
        else (kg.1, { kg.2 with entities := kg.2.entities ++ [r] })),
      pool := m.pool,
      camelCase := m.camelCase,
      store := m.store.set r e2,
      nextId := m.nextId } with hM1
  have hg1 : getE M1 r = e2 := by
    simp only [getE, hM1]
    exact getD_set_same _ _ hr
  have hidx2 : jsIndexOf (getE M1 r).comps c = some (getE m r).comps.length := by
    rw [hg1, he2]
    exact jsIndexOf_append_self hmem
  have hcam : M1.camelCase = m.camelCase := rfl
  have hpn2 : Part0.componentPropertyName c M1.camelCase = some cn := by rw [hcam]; exact hcn
  rw [entityRemoveComponent_present_eq M1 r c ((getE m r).comps.length) cn hidx2 hpn2]
  refine ⟨rfl, rfl, ?_, hlast⟩
  intro cn2 hcn2
  rw [hcn] at hcn2
  cases hcn2
  have hr2 : r < M1.store.length := by
    simp only [hM1, List.length_set]
    exact hr
  simp only [getE]
  rw [getD_set_same _ _ hr2]
  exact lookupA_removeKey _ _

/-- Witness for C8: a fresh entity, attaching and detaching `Position`. -/
theorem attach_then_detach_notifications_witness :
    (Part0.entityAddComponent ((Part0.createEntity (Part0.mkManager none)).1) 0 posC).err
        = none ∧
    (Part0.entityAddComponent ((Part0.createEntity (Part0.mkManager none)).1) 0 posC).tr
        = [Ev.added 0 posC] ∧
    (Part0.entityRemoveComponent
      (Part0.entityAddComponent ((Part0.createEntity (Part0.mkManager none)).1) 0 posC).m
      0 posC).err = none ∧
    (Part0.entityRemoveComponent
      (Part0.entityAddComponent ((Part0.createEntity (Part0.mkManager none)).1) 0 posC).m
      0 posC).tr = [Ev.removed 0 posC] ∧
    (∀ cn, Part0.componentPropertyName posC
        ((Part0.createEntity (Part0.mkManager none)).1).camelCase = some cn →
      lookupA (getE (Part0.entityRemoveComponent
        (Part0.entityAddComponent ((Part0.createEntity (Part0.mkManager none)).1) 0 posC).m
        0 posC).m 0).props cn = none) ∧
    (∀ m2 r2 c2, (getE m2 r2).comps.contains c2 = true →
      Part0.entityAddComponent m2 r2 c2 = ⟨m2, [], none⟩) :=
  attach_then_detach_notifications _ 0 posC (by decide) (by decide) (by decide)

/-! ### C7: strict id monotonicity across creation and pooled reuse -/

theorem jsIndexOf_some_mem {α : Type} [DecidableEq α] {l : List α} {a : α} {i : Nat}
    (h : jsIndexOf l a = some i) : a ∈ l := by
  by_cases hm : a ∈ l
  · exact hm
  · rw [jsIndexOf_eq_none hm] at h
    cases h

/-- Frame facts of `entityRemoveComponent`: it never touches the live-entity
list, the tag index, the pool, the option, the id counter, or the store's
length. -/
theorem entityRemoveComponent_frame (m : Manager) (r : Nat) (c : CompType) :
    (Part0.entityRemoveComponent m r c).m.nextId = m.nextId ∧
    (Part0.entityRemoveComponent m r c).m.store.length = m.store.length ∧
    (Part0.entityRemoveComponent m r c).m.entities = m.entities ∧
    (Part0.entityRemoveComponent m r c).m.pool = m.pool ∧
    (Part0.entityRemoveComponent m r c).m.tags = m.tags ∧
    (Part0.entityRemoveComponent m r c).m.camelCase = m.camelCase := by
  cases hI : jsIndexOf (getE m r).comps c with
  | none =>
    simp only [Part0.entityRemoveComponent, hI]
    refine ⟨?_, ?_, ?_, ?_, ?_, ?_⟩ <;> trivial
  | some i =>
    cases hP : Part0.componentPropertyName c m.camelCase with
    | none =>
      simp only [Part0.entityRemoveComponent, hI, hP]
      refine ⟨?_, ?_, ?_, ?_, ?_, ?_⟩ <;> trivial
    | some pn =>
      simp only [Part0.entityRemoveComponent, hI, hP, setE]
      refine ⟨?_, ?_, ?_, ?_, ?_, ?_⟩ <;> simp [List.length_set]

/-- The same frame facts for the `entityRemoveAllComponents` loop. -/
theorem entityRemoveAllComponentsAux_frame (r : Nat) : ∀ (j : Nat) (m : Manager),
    (Part0.entityRemoveAllComponentsAux m r j).m.nextId = m.nextId ∧
    (Part0.entityRemoveAllComponentsAux m r j).m.store.length = m.store.length ∧
    (Part0.entityRemoveAllComponentsAux m r j).m.entities = m.entities ∧
    (Part0.entityRemoveAllComponentsAux m r j).m.pool = m.pool ∧
    (Part0.entityRemoveAllComponentsAux m r j).m.tags = m.tags ∧
    (Part0.entityRemoveAllComponentsAux m r j).m.camelCase = m.camelCase := by
  intro j
  induction j with
  | zero => intro m; exact ⟨rfl, rfl, rfl, rfl, rfl, rfl⟩
  | succ j ih =>
    intro m
    cases hget : (getE m r).comps.get? j with
    | none =>
      simp only [Part0.entityRemoveAllComponentsAux, hget]
      exact ih m
    | some C =>
      simp only [Part0.entityRemoveAllComponentsAux, hget]
      cases hs : (Part0.entityRemoveComponent m r C).err with
      | some e =>
        simp only [hs]
        exact entityRemoveComponent_frame m r C
      | none =>
        simp only [hs]
        obtain ⟨h1, h2, h3, h4, h5, h6⟩ := entityRemoveComponent_frame m r C
        obtain ⟨g1, g2, g3, g4, g5, g6⟩ := ih (Part0.entityRemoveComponent m r C).m
        exact ⟨g1.trans h1, g2.trans h2, g3.trans h3, g4.trans h4, g5.trans h5, g6.trans h6⟩

/-- The invariant a `Part0` manager needs for the id-monotonicity argument:
pool and live handles dereference inside the store. -/
abbrev C7Inv (m : Manager) : Prop :=
  (∀ r ∈ m.pool, r < m.store.length) ∧ (∀ r ∈ m.entities, r < m.store.length)

theorem createEntity_c7 (m : Manager) (hinv : C7Inv m) :
    (getE (Part0.createEntity m).1 (Part0.createEntity m).2).eid = m.nextId ∧
    (Part0.createEntity m).1.nextId = m.nextId + 1 ∧
    C7Inv (Part0.createEntity m).1 := by
  obtain ⟨hpool, hent⟩ := hinv
  cases hp : m.pool with
  | cons r rest =>
    have hr : r < m.store.length := hpool r (by rw [hp]; exact List.mem_cons_self _ _)
    simp only [Part0.createEntity, hp]
    refine ⟨?_, trivial, ?_, ?_⟩
    · simp only [getE]
      exact congrArg EntityData.eid (getD_set_same _ _ hr)
    · intro r2 h2
      rw [List.length_set]
      exact hpool r2 (by rw [hp]; exact List.mem_cons_of_mem _ h2)
    · intro r2 h2
      rw [List.length_set]
      rcases List.mem_append.mp h2 with h3 | h3
      · exact hent r2 h3
      · rw [List.mem_singleton.mp h3]
        exact hr
  | nil =>
    simp only [Part0.createEntity, hp]
    refine ⟨?_, trivial, ?_, ?_⟩
    · simp only [getE]
      rw [List.getD_eq_get?, List.get?_concat_length]
      rfl
    · intro r2 h2
      cases h2
    · intro r2 h2
      rw [List.length_append]
      rcases List.mem_append.mp h2 with h3 | h3
      · exact Nat.lt_of_lt_of_le (hent r2 h3) (Nat.le_add_right _ _)
      · rw [List.mem_singleton.mp h3]
        simp

theorem removeEntity_c7 (m : Manager) (r : Nat) (hinv : C7Inv m) :
    (Part0.removeEntity m r).m.nextId = m.nextId ∧
    C7Inv (Part0.removeEntity m r).m := by
  obtain ⟨hpool, hent⟩ := hinv
  cases hI : jsIndexOf m.entities r with
  | none =>
    simp only [Part0.removeEntity, hI]
    exact ⟨trivial, hpool, hent⟩
  | some index =>
    obtain ⟨f1, f2, f3, f4, f5, f6⟩ :=
      entityRemoveAllComponentsAux_frame r ((getE m r).comps.length) m
    have g1 : (Part0.entityRemoveAllComponents m r).m.nextId = m.nextId := f1
    have g2 : (Part0.entityRemoveAllComponents m r).m.store.length = m.store.length := f2
    have g3 : (Part0.entityRemoveAllComponents m r).m.entities = m.entities := f3
    have g4 : (Part0.entityRemoveAllComponents m r).m.pool = m.pool := f4
    cases hs : (Part0.entityRemoveAllComponents m r).err with
    | some e =>
      simp only [Part0.removeEntity, hI, hs]
      refine ⟨g1, ?_, ?_⟩
      · intro r2 h2
        rw [g2]
        exact hpool r2 (g4 ▸ h2)
      · intro r2 h2
        rw [g2]
        exact hent r2 (g3 ▸ h2)
    | none =>
      simp only [Part0.removeEntity, hI, hs, setE]
      refine ⟨g1, ?_, ?_⟩
      · intro r2 h2
        simp only [List.length_set]
        rw [g2]
        rcases List.mem_cons.mp h2 with h3 | h3
        · subst h3
          exact hent r2 (jsIndexOf_some_mem hI)
        · exact hpool r2 (g4 ▸ h3)
      · intro r2 h2
        simp only [List.length_set]
        rw [g2]
        apply hent r2
        rw [← g3]
        exact (List.eraseIdx_sublist _ index).subset h2

/-- N `createEntity` calls, collecting the id visible on each returned
handle at the moment of its creation. -/
def doCreates : Manager → Nat → Manager × List Nat
  | m, 0 => (m, [])
  | m, n + 1 =>
    let p := Part0.createEntity m
    let q := doCreates p.1 n
    (q.1, (getE p.1 p.2).eid :: q.2)

/-- A sequence of `removeEntity` calls (errors behave as caught). -/
def doRemoves : Manager → List Nat → Manager
  | m, [] => m
  | m, r :: rs => doRemoves (Part0.removeEntity m r).m rs

theorem doCreates_spec : ∀ (n : Nat) (m : Manager), C7Inv m →
    C7Inv (doCreates m n).1 ∧
    (doCreates m n).1.nextId = m.nextId + n ∧
    (∀ i ∈ (doCreates m n).2, i < (doCreates m n).1.nextId) := by
  intro n
  induction n with
  | zero =>
    intro m hinv
    exact ⟨hinv, rfl, by intro i hi; cases hi⟩
  | succ n ih =>
    intro m hinv
    obtain ⟨heid, hnext, hinv1⟩ := createEntity_c7 m hinv
    obtain ⟨jinv, jnext, jbound⟩ := ih (Part0.createEntity m).1 hinv1
    refine ⟨jinv, ?_, ?_⟩
    · show (doCreates (Part0.createEntity m).1 n).1.nextId = m.nextId + (n + 1)
      rw [jnext, hnext]
      omega
    · intro i hi
      rcases List.mem_cons.mp hi with h3 | h3
      · subst h3
        show (getE (Part0.createEntity m).1 (Part0.createEntity m).2).eid
          < (doCreates (Part0.createEntity m).1 n).1.nextId
        rw [jnext, heid, hnext]
        omega
      · show i < (doCreates (Part0.createEntity m).1 n).1.nextId
        exact jbound i h3

theorem doRemoves_spec : ∀ (rs : List Nat) (m : Manager), C7Inv m →
    C7Inv (doRemoves m rs) ∧ (doRemoves m rs).nextId = m.nextId := by
  intro rs
  induction rs with
  | nil => intro m hinv; exact ⟨hinv, rfl⟩
  | cons r rest ih =>
    intro m hinv
    obtain ⟨hnext, hinv1⟩ := removeEntity_c7 m r hinv
    obtain ⟨jinv, jnext⟩ := ih (Part0.removeEntity m r).m hinv1
    exact ⟨jinv, jnext.trans hnext⟩

/-- C7: for every N `createEntity` calls on a fresh manager, followed by
any M `removeEntity` calls, the entity returned by one further
`createEntity` — fresh or recycled from the pool — carries an id strictly
greater than every id issued by the N earlier creations; no recycled
entity reuses a previous id. -/
theorem entity_ids_strictly_monotone (N : Nat) (rs : List Nat) (i : Nat)
    (hi : i ∈ (doCreates (Part0.mkManager none) N).2) :
    i < (getE
          (Part0.createEntity (doRemoves (doCreates (Part0.mkManager none) N).1 rs)).1
          (Part0.createEntity (doRemoves (doCreates (Part0.mkManager none) N).1 rs)).2).eid := by
  have hfresh : C7Inv (Part0.mkManager none) := by
    constructor
    · intro r h; cases h
    · intro r h; cases h
  obtain ⟨cinv, cnext, cbound⟩ := doCreates_spec N (Part0.mkManager none) hfresh
  obtain ⟨rinv, rnext⟩ := doRemoves_spec rs (doCreates (Part0.mkManager none) N).1 cinv
  obtain ⟨heid, _, _⟩ := createEntity_c7 (doRemoves (doCreates (Part0.mkManager none) N).1 rs) rinv
  rw [heid, rnext]
  exact cbound i hi

/-- Witness for C7: two creations, one removal, one more creation; both
original ids are below the id of the final (pool-recycled) entity. -/
theorem entity_ids_strictly_monotone_witness :
    0 ∈ (doCreates (Part0.mkManager none) 2).2 ∧
    0 < (getE
          (Part0.createEntity (doRemoves (doCreates (Part0.mkManager none) 2).1 [0])).1
          (Part0.createEntity (doRemoves (doCreates (Part0.mkManager none) 2).1 [0])).2).eid :=
  ⟨by decide, entity_ids_strictly_monotone 2 [0] 0 (by decide)⟩

/-! ### Wf machinery -/

theorem bool_eq_of_iff {a b : Bool} (h : a = true ↔ b = true) : a = b := by
  cases a <;> cases b <;> simp_all

theorem contains_erase_of_ne {l : List CompType} {C c : CompType} (h : ¬(C = c)) :
    (l.erase c).contains C = l.contains C := by
  apply bool_eq_of_iff
  rw [contains_iff_mem, contains_iff_mem]
  exact List.mem_erase_of_ne h

theorem hasAll_comps_erase_of_not_mem {e1 e2 : EntityData} {c : CompType}
    {Cs : List CompType} (hcomps : e1.comps = e2.comps.erase c) (hnotin : c ∉ Cs) :
    hasAllComponents e1 Cs = hasAllComponents e2 Cs := by
  simp only [hasAllComponents, hcomps]
  apply bool_eq_of_iff
  rw [List.all_eq_true, List.all_eq_true]
  constructor
  · intro h C hC
    rw [← contains_erase_of_ne (fun hh : C = c => hnotin (hh ▸ hC))]
    exact h C hC
  · intro h C hC
    rw [contains_erase_of_ne (fun hh : C = c => hnotin (hh ▸ hC))]
    exact h C hC

theorem hasAll_comps_erase_self_false {e1 e2 : EntityData} {c : CompType}
    {Cs : List CompType} (hcomps : e1.comps = e2.comps.erase c)
    (hnd : e2.comps.Nodup) (hcCs : c ∈ Cs) :
    hasAllComponents e1 Cs = false := by
  simp only [hasAllComponents, hcomps]
  rcases Bool.eq_false_or_eq_true (Cs.all fun C => (e2.comps.erase c).contains C) with h | h
  · exfalso
    have := (List.all_eq_true.mp h) c hcCs
    exact (List.Nodup.not_mem_erase hnd) (contains_iff_mem.mp this)
  · exact h

theorem hasAll_congr {e1 e2 : EntityData} (h : e1.comps = e2.comps) (Cs : List CompType) :
    hasAllComponents e1 Cs = hasAllComponents e2 Cs := by
  simp [hasAllComponents, h]

/-- The `(key, Components)` skeleton of the group index: what stays fixed
under every operation except group creation. -/
def gskel (m : Manager) : List (String × List CompType) :=
  m.groups.map (fun kg => (kg.1, kg.2.Components))

theorem hasAll_true_of_subset {e1 e2 : EntityData}
    (hsub : ∀ C, C ∈ e1.comps → C ∈ e2.comps) {Cs : List CompType}
    (h : hasAllComponents e1 Cs = true) : hasAllComponents e2 Cs = true := by
  rw [hasAllComponents, List.all_eq_true] at *
  intro C hC
  exact contains_iff_mem.mpr (hsub _ (contains_iff_mem.mp (h C hC)))

theorem entityRemoveComponent_wf (m : Manager) (r : Nat) (c : CompType)
    (hwf : Wf m) (hr : r ∈ m.entities) (hc : c ∈ (getE m r).comps) :
    (Part0.entityRemoveComponent m r c).err = none ∧
    (Part0.entityRemoveComponent m r c).m.entities = m.entities ∧
    (Part0.entityRemoveComponent m r c).m.tags = m.tags ∧
    (Part0.entityRemoveComponent m r c).m.pool = m.pool ∧
    (Part0.entityRemoveComponent m r c).m.nextId = m.nextId ∧
    (Part0.entityRemoveComponent m r c).m.camelCase = m.camelCase ∧
    (Part0.entityRemoveComponent m r c).m.store.length = m.store.length ∧
    (getE (Part0.entityRemoveComponent m r c).m r).comps = (getE m r).comps.erase c ∧
    (∀ r2, ¬(r2 = r) → getE (Part0.entityRemoveComponent m r c).m r2 = getE m r2) ∧
    gskel (Part0.entityRemoveComponent m r c).m = gskel m ∧
    Wf (Part0.entityRemoveComponent m r c).m := by
  obtain ⟨hEnod, hEval, hPnod, hPval, hPE, hTnod, hTlive, hCnod, hCname,
    hGkey, hGne, hGnod, hGmem, hGall⟩ := hwf
  obtain ⟨i, hI⟩ := jsIndexOf_of_mem hc
  obtain ⟨pn, hP⟩ := componentPropertyName_isSome m.camelCase (hCname r hr c hc)
  rw [entityRemoveComponent_present_eq m r c i pn hI hP]
  have hrlen : r < m.store.length := hEval r hr
  set e3 : EntityData :=
    { getE m r with
        comps := (getE m r).comps.eraseIdx i,
        props := removeKey (getE m r).props pn } with he3
  have hg1 : (m.store.set r e3).getD r default = e3 := getD_set_same _ _ hrlen
  have hg2 : ∀ r2, ¬(r2 = r) → (m.store.set r e3).getD r2 default = m.store.getD r2 default :=
    fun r2 h => getD_set_other _ _ h
  have hcomps3 : e3.comps = (getE m r).comps.erase c := by
    rw [he3]
    exact jsIndexOf_eraseIdx hI
  set f : (String × CompGroup) → (String × CompGroup) := (fun kg =>
    if !(kg.2.Components.contains c) then kg
    else if !(hasAllComponents (getE m r) kg.2.Components) then kg
    else (kg.1, { kg.2 with entities := kg.2.entities.erase r })) with hf
  have hfcase : ∀ kg : String × CompGroup,
      (f kg).1 = kg.1 ∧ (f kg).2.Components = kg.2.Components ∧
      (((f kg).2.entities = kg.2.entities ∧
          (kg.2.Components.contains c = false ∨
           hasAllComponents (getE m r) kg.2.Components = false)) ∨
       ((f kg).2.entities = kg.2.entities.erase r ∧
          kg.2.Components.contains c = true ∧
          hasAllComponents (getE m r) kg.2.Components = true)) := by
    intro kg
    rcases Bool.eq_false_or_eq_true (kg.2.Components.contains c) with h1 | h1
    · have hm1 : c ∈ kg.2.Components := contains_iff_mem.mp h1
      rcases Bool.eq_false_or_eq_true (hasAllComponents (getE m r) kg.2.Components) with h2 | h2
      · refine ⟨?_, ?_, Or.inr ⟨?_, h1, h2⟩⟩ <;> simp [hf, hm1, h2]
      · refine ⟨?_, ?_, Or.inl ⟨?_, Or.inr h2⟩⟩ <;> simp [hf, hm1, h2]
    · have hm1 : c ∉ kg.2.Components := not_mem_of_contains_false h1
      refine ⟨?_, ?_, Or.inl ⟨?_, Or.inl h1⟩⟩ <;> simp [hf, hm1]
  refine ⟨rfl, rfl, rfl, rfl, rfl, rfl, by simp [List.length_set], ?_, ?_, ?_, ?_⟩
  · show ((m.store.set r e3).getD r default).comps = (getE m r).comps.erase c
    rw [hg1]
    exact hcomps3
  · intro r2 h2
    show (m.store.set r e3).getD r2 default = getE m r2
    rw [hg2 r2 h2]
    rfl
  · show (m.groups.map f).map (fun kg => (kg.1, kg.2.Components))
      = m.groups.map (fun kg => (kg.1, kg.2.Components))
    rw [List.map_map]
    apply List.map_eq_map_iff.mpr
    intro kg _
    obtain ⟨hk1, hk2, _⟩ := hfcase kg
    show ((f kg).1, (f kg).2.Components) = (kg.1, kg.2.Components)
    rw [hk1, hk2]
  · -- Wf of the post-state
    have hget : ∀ r2, getE
        ({ tags := m.tags, entities := m.entities, groups := m.groups.map f,
           pool := m.pool, camelCase := m.camelCase, store := m.store.set r e3,
           nextId := m.nextId } : Manager) r2
        = if r2 = r then e3 else getE m r2 := by
      intro r2
      by_cases h2 : r2 = r
      · subst h2
        show (m.store.set r2 e3).getD r2 default = _
        rw [if_pos rfl, hg1]
      · show (m.store.set r e3).getD r2 default = _
        rw [if_neg h2, hg2 r2 h2]
        rfl
    refine ⟨hEnod, ?_, hPnod, ?_, hPE, hTnod, hTlive, ?_, ?_, ?_, ?_, ?_, ?_, ?_⟩
    · intro r2 h2
      show r2 < (m.store.set r e3).length
      rw [List.length_set]
      exact hEval r2 h2
    · intro r2 h2
      show r2 < (m.store.set r e3).length
      rw [List.length_set]
      exact hPval r2 h2
    · -- comps nodup
      intro r2 h2
      rw [hget r2]
      by_cases hrr : r2 = r
      · rw [if_pos hrr, hcomps3]
        exact List.Nodup.erase c (hCnod r hr)
      · rw [if_neg hrr]
        exact hCnod r2 h2
    · -- comps names
      intro r2 h2 c2 hc2
      rw [hget r2] at hc2
      by_cases hrr : r2 = r
      · rw [if_pos hrr, hcomps3] at hc2
        exact hCname r hr c2 (List.mem_of_mem_erase hc2)
      · rw [if_neg hrr] at hc2
        exact hCname r2 h2 c2 hc2
    · -- group keys
      intro kg' hkg'
      obtain ⟨kg, hkg, rfl⟩ := List.mem_map.mp hkg'
      obtain ⟨hk1, hk2, _⟩ := hfcase kg
      rw [hk1, hk2]
      exact hGkey kg hkg
    · -- group Components nonempty
      intro kg' hkg'
      obtain ⟨kg, hkg, rfl⟩ := List.mem_map.mp hkg'
      obtain ⟨_, hk2, _⟩ := hfcase kg
      rw [hk2]
      exact hGne kg hkg
    · -- group entity lists nodup
      intro kg' hkg'
      obtain ⟨kg, hkg, rfl⟩ := List.mem_map.mp hkg'
      obtain ⟨_, _, hk3 | hk3⟩ := hfcase kg
      · rw [hk3.1]
        exact hGnod kg hkg
      · rw [hk3.1]
        exact List.Nodup.erase r (hGnod kg hkg)
    · -- group members are live and hold all components
      intro kg' hkg' r2 hr2
      obtain ⟨kg, hkg, rfl⟩ := List.mem_map.mp hkg'
      obtain ⟨_, hk2, hk3 | hk3⟩ := hfcase kg
      · rw [hk3.1] at hr2
        obtain ⟨hlive, hall⟩ := hGmem kg hkg r2 hr2
        refine ⟨hlive, ?_⟩
        rw [hk2, hget r2]
        by_cases hrr : r2 = r
        · subst hrr
          rcases hk3.2 with hcont | hfalse
          · rw [if_pos rfl]
            rw [hasAll_comps_erase_of_not_mem hcomps3 (not_mem_of_contains_false hcont)]
            exact hall
          · rw [hfalse] at hall
            cases hall
        · rw [if_neg hrr]
          exact hall
      · rw [hk3.1] at hr2
        have hne := (List.Nodup.mem_erase_iff (hGnod kg hkg)).mp hr2
        obtain ⟨hlive, hall⟩ := hGmem kg hkg r2 hne.2
        refine ⟨hlive, ?_⟩
        rw [hk2, hget r2, if_neg hne.1]
        exact hall
    · -- live entities holding all components are in the group
      intro kg' hkg' r2 h2 hall
      obtain ⟨kg, hkg, rfl⟩ := List.mem_map.mp hkg'
      obtain ⟨_, hk2, hk3 | hk3⟩ := hfcase kg
      · rw [hk3.1]
        rw [hk2, hget r2] at hall
        by_cases hrr : r2 = r
        · rw [if_pos hrr] at hall
          rcases hk3.2 with hcont | hfalse
          · rw [hasAll_comps_erase_of_not_mem hcomps3 (not_mem_of_contains_false hcont)] at hall
            subst hrr
            exact hGall kg hkg r2 h2 hall
          · exfalso
            have : hasAllComponents (getE m r) kg.2.Components = true := by
              apply hasAll_true_of_subset ?_ hall
              intro C hC
              rw [hcomps3] at hC
              exact List.mem_of_mem_erase hC
            rw [hfalse] at this
            cases this
        · rw [if_neg hrr] at hall
          exact hGall kg hkg r2 h2 hall
      · rw [hk3.1]
        rw [hk2, hget r2] at hall
        by_cases hrr : r2 = r
        · exfalso
          rw [if_pos hrr] at hall
          have : hasAllComponents e3 kg.2.Components = false :=
            hasAll_comps_erase_self_false hcomps3 (hCnod r hr)
              (contains_iff_mem.mp hk3.2.1)
          rw [this] at hall
          cases hall
        · rw [if_neg hrr] at hall
          exact (List.mem_erase_of_ne hrr).mpr (hGall kg hkg r2 h2 hall)

theorem entityRemoveComponent_noop (m : Manager) (r : Nat) (c : CompType)
    (hc : c ∉ (getE m r).comps) :
    Part0.entityRemoveComponent m r c = ⟨m, [], none⟩ := by
  simp only [Part0.entityRemoveComponent, jsIndexOf_eq_none hc]

theorem hasAll_nil_comps_false {e : EntityData} (h : e.comps = []) {Cs : List CompType}
    (hCs : ¬(Cs = [])) : hasAllComponents e Cs = false := by
  cases Cs with
  | nil => exact absurd rfl hCs
  | cons C rest => simp [hasAllComponents, h]

theorem entityRemoveAllComponentsAux_wf (r : Nat) : ∀ (j : Nat) (m : Manager),
    Wf m → r ∈ m.entities → (getE m r).comps.length = j →
    (Part0.entityRemoveAllComponentsAux m r j).err = none ∧
    (Part0.entityRemoveAllComponentsAux m r j).m.entities = m.entities ∧
    (Part0.entityRemoveAllComponentsAux m r j).m.tags = m.tags ∧
    (Part0.entityRemoveAllComponentsAux m r j).m.pool = m.pool ∧
    (Part0.entityRemoveAllComponentsAux m r j).m.nextId = m.nextId ∧
    (Part0.entityRemoveAllComponentsAux m r j).m.camelCase = m.camelCase ∧
    (Part0.entityRemoveAllComponentsAux m r j).m.store.length = m.store.length ∧
    (getE (Part0.entityRemoveAllComponentsAux m r j).m r).comps = [] ∧
    (∀ r2, ¬(r2 = r) → getE (Part0.entityRemoveAllComponentsAux m r j).m r2 = getE m r2) ∧
    gskel (Part0.entityRemoveAllComponentsAux m r j).m = gskel m ∧
    Wf (Part0.entityRemoveAllComponentsAux m r j).m := by
  intro j
  induction j with
  | zero =>
    intro m hwf hr hlen
    refine ⟨rfl, rfl, rfl, rfl, rfl, rfl, rfl, ?_, fun r2 _ => rfl, rfl, hwf⟩
    exact List.length_eq_zero.mp hlen
  | succ j ih =>
    intro m hwf hr hlen
    have hj : j < (getE m r).comps.length := by omega
    have hget : (getE m r).comps.get? j = some ((getE m r).comps.get ⟨j, hj⟩) :=
      List.get?_eq_get hj
    have hcmem : (getE m r).comps.get ⟨j, hj⟩ ∈ (getE m r).comps := List.get_mem _ j hj
    obtain ⟨e0, f2, f3, f4, f5, f6, f7, hcomps, hother, hskel, hwf2⟩ :=
      entityRemoveComponent_wf m r ((getE m r).comps.get ⟨j, hj⟩) hwf hr hcmem
    simp only [Part0.entityRemoveAllComponentsAux, hget, e0]
    have hr2 : r ∈ (Part0.entityRemoveComponent m r ((getE m r).comps.get ⟨j, hj⟩)).m.entities := by
      rw [f2]; exact hr
    have hlen2 : (getE (Part0.entityRemoveComponent m r ((getE m r).comps.get ⟨j, hj⟩)).m r).comps.length = j := by
      rw [hcomps, List.length_erase_of_mem hcmem, hlen]
      omega
    obtain ⟨g1, g2, g3, g4, g5, g6, g7, gcomps, gother, gskel2, gwf⟩ :=
      ih (Part0.entityRemoveComponent m r ((getE m r).comps.get ⟨j, hj⟩)).m hwf2 hr2 hlen2
    exact ⟨g1, g2.trans f2, g3.trans f3, g4.trans f4, g5.trans f5, g6.trans f6,
      g7.trans f7, gcomps, fun r2 h => (gother r2 h).trans (hother r2 h),
      gskel2.trans hskel, gwf⟩

theorem entityRemoveAllComponents_wf (m : Manager) (r : Nat)
    (hwf : Wf m) (hr : r ∈ m.entities) :
    (Part0.entityRemoveAllComponents m r).err = none ∧
    (Part0.entityRemoveAllComponents m r).m.entities = m.entities ∧
    (Part0.entityRemoveAllComponents m r).m.tags = m.tags ∧
    (Part0.entityRemoveAllComponents m r).m.pool = m.pool ∧
    (Part0.entityRemoveAllComponents m r).m.nextId = m.nextId ∧
    (Part0.entityRemoveAllComponents m r).m.camelCase = m.camelCase ∧
    (Part0.entityRemoveAllComponents m r).m.store.length = m.store.length ∧
    (getE (Part0.entityRemoveAllComponents m r).m r).comps = [] ∧
    (∀ r2, ¬(r2 = r) → getE (Part0.entityRemoveAllComponents m r).m r2 = getE m r2) ∧
    gskel (Part0.entityRemoveAllComponents m r).m = gskel m ∧
    Wf (Part0.entityRemoveAllComponents m r).m :=
  entityRemoveAllComponentsAux_wf r ((getE m r).comps.length) m hwf hr rfl

theorem removeEntity_err (m : Manager) (r : Nat) (hr : r ∉ m.entities) :
    Part0.removeEntity m r = ⟨m, [], some "Tried to remove entity not in list"⟩ := by
  simp only [Part0.removeEntity, jsIndexOf_eq_none hr]

theorem removeEntity_success_eq (m : Manager) (r : Nat) (idx : Nat)
    (hI : jsIndexOf m.entities r = some idx)
    (e0 : (Part0.entityRemoveAllComponents m r).err = none) :
    Part0.removeEntity m r =
      ⟨{ tags := (Part0.entityRemoveAllComponents m r).m.tags.map
           (fun p => (p.1, p.2.erase r)),
         entities := (Part0.entityRemoveAllComponents m r).m.entities.eraseIdx idx,
         groups := (Part0.entityRemoveAllComponents m r).m.groups,
         pool := r :: (Part0.entityRemoveAllComponents m r).m.pool,
         camelCase := (Part0.entityRemoveAllComponents m r).m.camelCase,
         store := (Part0.entityRemoveAllComponents m r).m.store.set r
           { getE (Part0.entityRemoveAllComponents m r).m r with tags := [] },
         nextId := (Part0.entityRemoveAllComponents m r).m.nextId },
        (Part0.entityRemoveAllComponents m r).tr, none⟩ := by
  simp only [Part0.removeEntity, hI, e0, setE]
  rfl

theorem removeEntity_wf (m : Manager) (r : Nat) (hwf : Wf m) (hr : r ∈ m.entities) :
    (Part0.removeEntity m r).err = none ∧
    (Part0.removeEntity m r).m.entities = m.entities.erase r ∧
    (∀ t, lookupA (Part0.removeEntity m r).m.tags t
      = (lookupA m.tags t).map (fun l => l.erase r)) ∧
    (Part0.removeEntity m r).m.nextId = m.nextId ∧
    (Part0.removeEntity m r).m.camelCase = m.camelCase ∧
    (Part0.removeEntity m r).m.store.length = m.store.length ∧
    (Part0.removeEntity m r).m.pool = r :: m.pool ∧
    (∀ r2, ¬(r2 = r) → getE (Part0.removeEntity m r).m r2 = getE m r2) ∧
    gskel (Part0.removeEntity m r).m = gskel m ∧
    Wf (Part0.removeEntity m r).m := by
  obtain ⟨idx, hI⟩ := jsIndexOf_of_mem hr
  obtain ⟨e0, f2, f3, f4, f5, f6, f7, hcomps0, hother0, hskel0, hwf2⟩ :=
    entityRemoveAllComponents_wf m r hwf hr
  obtain ⟨wEnod, wEval, wPnod, wPval, wPE, wTnod, wTlive, wCnod, wCname,
    wGkey, wGne, wGnod, wGmem, wGall⟩ := hwf2
  obtain ⟨hEnod0, hEval0, hPnod0, hPval0, hPE0, hTnod0, hTlive0, _⟩ := hwf
  rw [removeEntity_success_eq m r idx hI e0]
  set sm := (Part0.entityRemoveAllComponents m r).m with hsm
  set e9 : EntityData := { getE sm r with tags := [] } with he9
  have hrlen : r < sm.store.length := by
    rw [f7]
    exact hEval0 r hr
  have hent5 : sm.entities.eraseIdx idx = m.entities.erase r := by
    rw [f2]
    exact jsIndexOf_eraseIdx hI
  have hget5 : ∀ r2, (sm.store.set r e9).getD r2 default
      = if r2 = r then e9 else getE sm r2 := by
    intro r2
    by_cases h2 : r2 = r
    · subst h2
      rw [if_pos rfl]
      exact getD_set_same _ _ hrlen
    · rw [if_neg h2]
      exact getD_set_other _ _ h2
  have hrg : ∀ kg ∈ sm.groups, r ∉ kg.2.entities := by
    intro kg hkg hmem
    have h2 := (wGmem kg hkg r hmem).2
    rw [hasAll_nil_comps_false hcomps0 (wGne kg hkg)] at h2
    cases h2
  refine ⟨rfl, hent5, ?_, f5, f6, ?_, ?_, ?_, hskel0, ?_⟩
  · intro t
    show lookupA (sm.tags.map (fun p => (p.1, p.2.erase r))) t
      = (lookupA m.tags t).map (fun l => l.erase r)
    rw [f3]
    exact lookupA_map_val m.tags (fun l => l.erase r) t
  · show (sm.store.set r e9).length = m.store.length
    rw [List.length_set]
    exact f7
  · show r :: sm.pool = r :: m.pool
    rw [f4]
  · intro r2 h2
    show (sm.store.set r e9).getD r2 default = getE m r2
    rw [hget5 r2, if_neg h2]
    exact hother0 r2 h2
  · refine ⟨?_, ?_, ?_, ?_, ?_, ?_, ?_, ?_, ?_, ?_, ?_, ?_, ?_, ?_⟩
    · show (sm.entities.eraseIdx idx).Nodup
      rw [hent5]
      exact List.Nodup.erase r hEnod0
    · intro r2 h2
      show r2 < (sm.store.set r e9).length
      rw [List.length_set, f7]
      have h2' : r2 ∈ sm.entities.eraseIdx idx := h2
      rw [hent5] at h2'
      exact hEval0 r2 (List.mem_of_mem_erase h2')
    · show (r :: sm.pool).Nodup
      rw [f4]
      exact List.nodup_cons.mpr ⟨fun hmem => hPE0 r hmem hr, hPnod0⟩
    · intro r2 h2
      show r2 < (sm.store.set r e9).length
      rw [List.length_set, f7]
      have h2' : r2 ∈ r :: sm.pool := h2
      rw [f4] at h2'
      rcases List.mem_cons.mp h2' with h3 | h3
      · subst h3
        exact hEval0 r2 hr
      · exact hPval0 r2 h3
    · intro r2 h2
      show r2 ∉ sm.entities.eraseIdx idx
      rw [hent5]
      have h2' : r2 ∈ r :: sm.pool := h2
      rw [f4] at h2'
      rcases List.mem_cons.mp h2' with h3 | h3
      · subst h3
        exact List.Nodup.not_mem_erase hEnod0
      · intro hmem
        exact hPE0 r2 h3 (List.mem_of_mem_erase hmem)
    · intro p hp
      obtain ⟨q, hq, rfl⟩ := List.mem_map.mp hp
      show (q.2.erase r).Nodup
      rw [f3] at hq
      exact List.Nodup.erase r (hTnod0 q hq)
    · intro p hp r2 h2
      obtain ⟨q, hq, rfl⟩ := List.mem_map.mp hp
      show r2 ∈ sm.entities.eraseIdx idx
      rw [hent5]
      rw [f3] at hq
      have h2' : r2 ∈ q.2.erase r := h2
      have hne := (List.Nodup.mem_erase_iff (hTnod0 q hq)).mp h2'
      exact (List.mem_erase_of_ne hne.1).mpr (hTlive0 q hq r2 hne.2)
    · intro r2 h2
      show ((sm.store.set r e9).getD r2 default).comps.Nodup
      rw [hget5 r2]
      by_cases h3 : r2 = r
      · rw [if_pos h3]
        show (getE sm r).comps.Nodup
        rw [hcomps0]
        exact List.nodup_nil
      · rw [if_neg h3]
        have h2' : r2 ∈ sm.entities.eraseIdx idx := h2
        rw [hent5] at h2'
        exact wCnod r2 (by rw [f2]; exact List.mem_of_mem_erase h2')
    · intro r2 h2 c2 hc2
      have hc2' : c2 ∈ ((sm.store.set r e9).getD r2 default).comps := hc2
      rw [hget5 r2] at hc2'
      by_cases h3 : r2 = r
      · rw [if_pos h3] at hc2'
        have : c2 ∈ (getE sm r).comps := hc2'
        rw [hcomps0] at this
        cases this
      · rw [if_neg h3] at hc2'
        have h2' : r2 ∈ sm.entities.eraseIdx idx := h2
        rw [hent5] at h2'
        exact wCname r2 (by rw [f2]; exact List.mem_of_mem_erase h2') c2 hc2'
    · intro kg hkg
      exact wGkey kg hkg
    · intro kg hkg
      exact wGne kg hkg
    · intro kg hkg
      exact wGnod kg hkg
    · intro kg hkg r2 h2
      have hmem := wGmem kg hkg r2 h2
      have hne : ¬(r2 = r) := by
        intro hh
        subst hh
        exact hrg kg hkg h2
      constructor
      · show r2 ∈ sm.entities.eraseIdx idx
        rw [hent5]
        exact (List.mem_erase_of_ne hne).mpr (by rw [← f2]; exact hmem.1)
      · show hasAllComponents ((sm.store.set r e9).getD r2 default) kg.2.Components = true
        rw [hget5 r2, if_neg hne]
        exact hmem.2
    · intro kg hkg r2 h2 hall
      have h2' : r2 ∈ sm.entities.eraseIdx idx := h2
      rw [hent5] at h2'
      have hne : ¬(r2 = r) := by
        intro hh
        subst hh
        exact (List.Nodup.not_mem_erase hEnod0) h2'
      have hall' : hasAllComponents ((sm.store.set r e9).getD r2 default)
          kg.2.Components = true := hall
      rw [hget5 r2, if_neg hne] at hall'
      exact wGall kg hkg r2 (by rw [f2]; exact List.mem_of_mem_erase h2') hall'

/-! ### C4: removeEntity raises exactly on untracked entities -/

/-- C4: under the manager's representation invariant, `removeEntity(e)`
raises exactly when `e` is not currently in the live-entity list; in
particular a second `removeEntity` on the same entity (with no intervening
`createEntity`) raises after a successful first one. -/
theorem removeEntity_raises_iff_untracked (m : Manager) (r : Nat) (hwf : Wf m) :
    (¬((Part0.removeEntity m r).err = none) ↔ r ∉ m.entities) ∧
    (r ∈ m.entities →
      (Part0.removeEntity m r).err = none ∧
      ¬((Part0.removeEntity (Part0.removeEntity m r).m r).err = none)) := by
  have hsecond : r ∈ m.entities →
      (Part0.removeEntity m r).err = none ∧
      ¬((Part0.removeEntity (Part0.removeEntity m r).m r).err = none) := by
    intro hr
    obtain ⟨e0, hent, _⟩ := removeEntity_wf m r hwf hr
    refine ⟨e0, ?_⟩
    have hnot : r ∉ (Part0.removeEntity m r).m.entities := by
      rw [hent]
      obtain ⟨hnod, _⟩ := hwf
      exact List.Nodup.not_mem_erase hnod
    rw [removeEntity_err _ r hnot]
    intro h
    cases h
  constructor
  · constructor
    · intro herr hr
      exact herr (removeEntity_wf m r hwf hr).1
    · intro hnot
      rw [removeEntity_err m r hnot]
      intro h
      cases h
  · exact hsecond

/-- Witness for C4: a one-entity manager; removing handle 0 twice. -/
theorem removeEntity_raises_iff_untracked_witness :
    (¬((Part0.removeEntity ((Part0.createEntity (Part0.mkManager none)).1) 0).err = none)
        ↔ 0 ∉ ((Part0.createEntity (Part0.mkManager none)).1).entities) ∧
    (0 ∈ ((Part0.createEntity (Part0.mkManager none)).1).entities →
      (Part0.removeEntity ((Part0.createEntity (Part0.mkManager none)).1) 0).err = none ∧
      ¬((Part0.removeEntity
          (Part0.removeEntity ((Part0.createEntity (Part0.mkManager none)).1) 0).m 0).err
        = none)) :=
  removeEntity_raises_iff_untracked _ 0 (by decide)

/-! ### C9: removeEntitiesByTag destroys exactly the tag's holders -/

theorem removeEntitiesByTagAux_wf (t : String) : ∀ (x : Nat) (m : Manager) (l : List Nat),
    Wf m → lookupA m.tags t = some l → l.length = x →
    (Part0.removeEntitiesByTagAux m t x).err = none ∧
    Wf (Part0.removeEntitiesByTagAux m t x).m ∧
    lookupA (Part0.removeEntitiesByTagAux m t x).m.tags t = some [] ∧
    (Part0.removeEntitiesByTagAux m t x).m.entities.length = m.entities.length - x ∧
    (∀ r ∈ l, r ∉ (Part0.removeEntitiesByTagAux m t x).m.entities) ∧
    (∀ r2 ∈ (Part0.removeEntitiesByTagAux m t x).m.entities, r2 ∈ m.entities) ∧
    (∀ r2 ∈ m.entities, r2 ∉ l → r2 ∈ (Part0.removeEntitiesByTagAux m t x).m.entities) := by
  intro x
  induction x with
  | zero =>
    intro m l hwf hlook hlen
    have hnil : l = [] := List.length_eq_zero.mp hlen
    subst hnil
    refine ⟨rfl, hwf, hlook, ?_, fun r hr => absurd hr (List.not_mem_nil r),
      fun r2 h2 => h2, fun r2 h2 _ => h2⟩
    show m.entities.length = m.entities.length - 0
    omega
  | succ x ih =>
    intro m l hwf hlook hlen
    have hx : x < l.length := by omega
    have hget : l.get? x = some (l.get ⟨x, hx⟩) := List.get?_eq_get hx
    have hamem : l.get ⟨x, hx⟩ ∈ l := List.get_mem _ x hx
    have htl : (t, l) ∈ m.tags := lookupA_mem hlook
    have halive : l.get ⟨x, hx⟩ ∈ m.entities := by
      obtain ⟨_, _, _, _, _, _, htlive, _⟩ := hwf
      exact htlive (t, l) htl _ hamem
    have hlnod : l.Nodup := by
      obtain ⟨_, _, _, _, _, htn, _⟩ := hwf
      exact htn (t, l) htl
    obtain ⟨e0, hent, htags, _, _, _, _, _, _, hwf2⟩ :=
      removeEntity_wf m (l.get ⟨x, hx⟩) hwf halive
    have hEnod : m.entities.Nodup := by
      obtain ⟨h, _⟩ := hwf
      exact h
    simp only [Part0.removeEntitiesByTagAux, hlook, Option.getD_some, hget, e0]
    have hlook2 : lookupA (Part0.removeEntity m (l.get ⟨x, hx⟩)).m.tags t
        = some (l.erase (l.get ⟨x, hx⟩)) := by
      rw [htags t, hlook]
      simp
    have hlen2 : (l.erase (l.get ⟨x, hx⟩)).length = x := by
      rw [List.length_erase_of_mem hamem, hlen]
      omega
    obtain ⟨g1, gwf, glook, glen, gdead, gsub, gkeep⟩ :=
      ih (Part0.removeEntity m (l.get ⟨x, hx⟩)).m (l.erase (l.get ⟨x, hx⟩))
        hwf2 hlook2 hlen2
    refine ⟨g1, gwf, glook, ?_, ?_, ?_, ?_⟩
    · rw [glen, hent, List.length_erase_of_mem halive]
      omega
    · intro r hrl hrfin
      by_cases hra : r = l.get ⟨x, hx⟩
      · have h1 : r ∈ (Part0.removeEntity m (l.get ⟨x, hx⟩)).m.entities := gsub r hrfin
        rw [hent, hra] at h1
        exact (List.Nodup.not_mem_erase hEnod) h1
      · exact gdead r ((List.mem_erase_of_ne hra).mpr hrl) hrfin
    · intro r2 h2
      have := gsub r2 h2
      rw [hent] at this
      exact List.mem_of_mem_erase this
    · intro r2 h2 hnotin
      have hne : ¬(r2 = l.get ⟨x, hx⟩) := fun hh => hnotin (hh ▸ hamem)
      apply gkeep r2
      · rw [hent]
        exact (List.mem_erase_of_ne hne).mpr h2
      · intro hmem
        exact hnotin (List.mem_of_mem_erase hmem)

/-- C9: under the representation invariant, `removeEntitiesByTag(t)` raises
nothing and destroys exactly the entities holding `t` at the start of the
call — none skipped, none double-processed, no other entity destroyed;
afterwards `queryTag(t)` returns the empty list and `count()` has dropped
by exactly the number of former holders. -/
theorem removeEntitiesByTag_removes_holders (m : Manager) (t : String) (hwf : Wf m) :
    (Part0.removeEntitiesByTag m t).err = none ∧
    (Part0.queryTag (Part0.removeEntitiesByTag m t).m t).2 = [] ∧
    Part0.count (Part0.removeEntitiesByTag m t).m
      = Part0.count m - ((lookupA m.tags t).getD []).length ∧
    (∀ r ∈ (lookupA m.tags t).getD [], r ∉ (Part0.removeEntitiesByTag m t).m.entities) ∧
    (∀ r2 ∈ m.entities, r2 ∉ (lookupA m.tags t).getD [] →
      r2 ∈ (Part0.removeEntitiesByTag m t).m.entities) := by
  cases hlook : lookupA m.tags t with
  | none =>
    simp only [Part0.removeEntitiesByTag, hlook]
    refine ⟨trivial, ?_, ?_, ?_, ?_⟩
    · simp only [Part0.queryTag, hlook]
    · simp only [Option.getD_none, List.length_nil, Part0.count]
      omega
    · intro r hr
      cases hr
    · intro r2 h2 _
      exact h2
  | some l =>
    obtain ⟨g1, gwf, glook, glen, gdead, gsub, gkeep⟩ :=
      removeEntitiesByTagAux_wf t l.length m l hwf hlook rfl
    simp only [Part0.removeEntitiesByTag, hlook]
    refine ⟨g1, ?_, ?_, ?_, ?_⟩
    · simp only [Part0.queryTag, glook]
    · simp only [Part0.count, Option.getD_some]
      exact glen
    · intro r hr
      exact gdead r hr
    · intro r2 h2 hnot
      exact gkeep r2 h2 hnot

/-- The C9 witness state: two live entities, handle 0 tagged "player". -/
def c9wM : Manager :=
  Part0.entityAddTag
    (Part0.createEntity (Part0.createEntity (Part0.mkManager none)).1).1
    0 "player"

/-- Witness for C9: the sweep destroys exactly the tagged entity. -/
theorem removeEntitiesByTag_removes_holders_witness :
    (Part0.removeEntitiesByTag c9wM "player").err = none ∧
    (Part0.queryTag (Part0.removeEntitiesByTag c9wM "player").m "player").2 = [] ∧
    Part0.count (Part0.removeEntitiesByTag c9wM "player").m
      = Part0.count c9wM - ((lookupA c9wM.tags "player").getD []).length ∧
    (∀ r ∈ (lookupA c9wM.tags "player").getD [],
      r ∉ (Part0.removeEntitiesByTag c9wM "player").m.entities) ∧
    (∀ r2 ∈ c9wM.entities, r2 ∉ (lookupA c9wM.tags "player").getD [] →
      r2 ∈ (Part0.removeEntitiesByTag c9wM "player").m.entities) :=
  removeEntitiesByTag_removes_holders c9wM "player" (by decide)

/-! ### C1 machinery: addComponent / createEntity / query preservation -/

theorem entityAddComponent_present_noop (m : Manager) (r : Nat) (c : CompType)
    (hc : c ∈ (getE m r).comps) :
    Part0.entityAddComponent m r c = ⟨m, [], none⟩ := by
  simp only [Part0.entityAddComponent, contains_iff_mem.mpr hc]
  rfl

theorem contains_append_single_of_ne {l : List CompType} {C c : CompType} (h : ¬(C = c)) :
    (l ++ [c]).contains C = l.contains C := by
  apply bool_eq_of_iff
  rw [contains_iff_mem, contains_iff_mem]
  constructor
  · intro hm
    rcases List.mem_append.mp hm with h1 | h1
    · exact h1
    · exact absurd (List.mem_singleton.mp h1) h
  · intro hm
    exact List.mem_append_left _ hm

theorem hasAll_comps_append_of_not_mem {e1 e2 : EntityData} {c : CompType}
    {Cs : List CompType} (hcomps : e1.comps = e2.comps ++ [c]) (hnotin : c ∉ Cs) :
    hasAllComponents e1 Cs = hasAllComponents e2 Cs := by
  simp only [hasAllComponents, hcomps]
  apply bool_eq_of_iff
  rw [List.all_eq_true, List.all_eq_true]
  constructor
  · intro h C hC
    rw [← contains_append_single_of_ne (fun hh : C = c => hnotin (hh ▸ hC))]
    exact h C hC
  · intro h C hC
    rw [contains_append_single_of_ne (fun hh : C = c => hnotin (hh ▸ hC))]
    exact h C hC

theorem entityAddComponent_wf (m : Manager) (r : Nat) (c : CompType) (cn : String)
    (hwf : Wf m) (hr : r ∈ m.entities) (hc : c ∉ (getE m r).comps)
    (hcn : Part0.componentPropertyName c m.camelCase = some cn) :
    (Part0.entityAddComponent m r c).err = none ∧
    (Part0.entityAddComponent m r c).m.entities = m.entities ∧
    (Part0.entityAddComponent m r c).m.tags = m.tags ∧
    (Part0.entityAddComponent m r c).m.pool = m.pool ∧
    (Part0.entityAddComponent m r c).m.nextId = m.nextId ∧
    (Part0.entityAddComponent m r c).m.camelCase = m.camelCase ∧
    (Part0.entityAddComponent m r c).m.store.length = m.store.length ∧
    (getE (Part0.entityAddComponent m r c).m r).comps = (getE m r).comps ++ [c] ∧
    (∀ r2, ¬(r2 = r) → getE (Part0.entityAddComponent m r c).m r2 = getE m r2) ∧
    gskel (Part0.entityAddComponent m r c).m = gskel m ∧
    Wf (Part0.entityAddComponent m r c).m := by
  obtain ⟨hEnod, hEval, hPnod, hPval, hPE, hTnod, hTlive, hCnod, hCname,
    hGkey, hGne, hGnod, hGmem, hGall⟩ := hwf
  have hn : ¬(c.cname = "") := by
    intro h
    rw [componentPropertyName_none m.camelCase h] at hcn
    cases hcn
  rw [entityAddComponent_fresh_eq m r c cn (contains_eq_false hc) hcn]
  have hrlen : r < m.store.length := hEval r hr
  set e2 : EntityData :=
    { getE m r with
        comps := (getE m r).comps ++ [c],
        props := setKey (getE m r).props cn c.cid } with he2
  have hg1 : (m.store.set r e2).getD r default = e2 := getD_set_same _ _ hrlen
  have hg2 : ∀ r2, ¬(r2 = r) → (m.store.set r e2).getD r2 default = m.store.getD r2 default :=
    fun r2 h => getD_set_other _ _ h
  have hget : ∀ r2, (m.store.set r e2).getD r2 default
      = if r2 = r then e2 else getE m r2 := by
    intro r2
    by_cases h2 : r2 = r
    · subst h2
      rw [if_pos rfl]
      exact hg1
    · rw [if_neg h2]
      exact hg2 r2 h2
  have hcomps2 : e2.comps = (getE m r).comps ++ [c] := rfl
  set f : (String × CompGroup) → (String × CompGroup) := (fun kg =>
    if !(kg.2.Components.contains c) then kg
    else if !(hasAllComponents e2 kg.2.Components) then kg
    else if kg.2.entities.contains r then kg
    else (kg.1, { kg.2 with entities := kg.2.entities ++ [r] })) with hf
  have hfcase : ∀ kg : String × CompGroup,
      (f kg).1 = kg.1 ∧ (f kg).2.Components = kg.2.Components ∧
      (((f kg).2.entities = kg.2.entities ∧
          (kg.2.Components.contains c = false ∨
           hasAllComponents e2 kg.2.Components = false ∨ r ∈ kg.2.entities)) ∨
       ((f kg).2.entities = kg.2.entities ++ [r] ∧
          kg.2.Components.contains c = true ∧
          hasAllComponents e2 kg.2.Components = true ∧ r ∉ kg.2.entities)) := by
    intro kg
    rcases Bool.eq_false_or_eq_true (kg.2.Components.contains c) with h1 | h1
    · have hm1 : c ∈ kg.2.Components := contains_iff_mem.mp h1
      rcases Bool.eq_false_or_eq_true (hasAllComponents e2 kg.2.Components) with h2 | h2
      · rcases Bool.eq_false_or_eq_true (kg.2.entities.contains r) with h3 | h3
        · have hm3 : r ∈ kg.2.entities := contains_iff_mem.mp h3
          refine ⟨?_, ?_, Or.inl ⟨?_, Or.inr (Or.inr hm3)⟩⟩ <;> simp [hf, hm1, h2, hm3]
        · have hm3 : r ∉ kg.2.entities := not_mem_of_contains_false h3
          refine ⟨?_, ?_, Or.inr ⟨?_, h1, h2, hm3⟩⟩ <;> simp [hf, hm1, h2, hm3]
      · refine ⟨?_, ?_, Or.inl ⟨?_, Or.inr (Or.inl h2)⟩⟩ <;> simp [hf, hm1, h2]
    · have hm1 : c ∉ kg.2.Components := not_mem_of_contains_false h1
      refine ⟨?_, ?_, Or.inl ⟨?_, Or.inl h1⟩⟩ <;> simp [hf, hm1]
  refine ⟨rfl, rfl, rfl, rfl, rfl, rfl, by simp [List.length_set], ?_, ?_, ?_, ?_⟩
  · show ((m.store.set r e2).getD r default).comps = (getE m r).comps ++ [c]
    rw [hg1]
  · intro r2 h2
    show (m.store.set r e2).getD r2 default = getE m r2
    rw [hg2 r2 h2]
    rfl
  · show (m.groups.map f).map (fun kg => (kg.1, kg.2.Components))
      = m.groups.map (fun kg => (kg.1, kg.2.Components))
    rw [List.map_map]
    apply List.map_eq_map_iff.mpr
    intro kg _
    obtain ⟨hk1, hk2, _⟩ := hfcase kg
    show ((f kg).1, (f kg).2.Components) = (kg.1, kg.2.Components)
    rw [hk1, hk2]
  · -- Wf of the post-state
    refine ⟨hEnod, ?_, hPnod, ?_, hPE, hTnod, hTlive, ?_, ?_, ?_, ?_, ?_, ?_, ?_⟩
    · intro r2 h2
      show r2 < (m.store.set r e2).length
      rw [List.length_set]
      exact hEval r2 h2
    · intro r2 h2
      show r2 < (m.store.set r e2).length
      rw [List.length_set]
      exact hPval r2 h2
    · intro r2 h2
      show ((m.store.set r e2).getD r2 default).comps.Nodup
      rw [hget r2]
      by_cases hrr : r2 = r
      · rw [if_pos hrr, hcomps2]
        rw [List.nodup_append]
        exact ⟨hCnod r hr, List.nodup_singleton c,
          fun a ha hb => hc ((List.mem_singleton.mp hb) ▸ ha)⟩
      · rw [if_neg hrr]
        exact hCnod r2 h2
    · intro r2 h2 c2 hc2
      have hc2' : c2 ∈ ((m.store.set r e2).getD r2 default).comps := hc2
      rw [hget r2] at hc2'
      by_cases hrr : r2 = r
      · rw [if_pos hrr, hcomps2] at hc2'
        rcases List.mem_append.mp hc2' with h3 | h3
        · exact hCname r hr c2 h3
        · rw [List.mem_singleton.mp h3]
          exact hn
      · rw [if_neg hrr] at hc2'
        exact hCname r2 h2 c2 hc2'
    · intro kg' hkg'
      obtain ⟨kg, hkg, rfl⟩ := List.mem_map.mp hkg'
      obtain ⟨hk1, hk2, _⟩ := hfcase kg
      rw [hk1, hk2]
      exact hGkey kg hkg
    · intro kg' hkg'
      obtain ⟨kg, hkg, rfl⟩ := List.mem_map.mp hkg'
      obtain ⟨_, hk2, _⟩ := hfcase kg
      rw [hk2]
      exact hGne kg hkg
    · intro kg' hkg'
      obtain ⟨kg, hkg, rfl⟩ := List.mem_map.mp hkg'
      obtain ⟨_, _, hk3 | hk3⟩ := hfcase kg
      · rw [hk3.1]
        exact hGnod kg hkg
      · rw [hk3.1]
        rw [List.nodup_append]
        exact ⟨hGnod kg hkg, List.nodup_singleton r,
          fun a ha hb => hk3.2.2.2 ((List.mem_singleton.mp hb) ▸ ha)⟩
    · intro kg' hkg' r2 hr2
      obtain ⟨kg, hkg, rfl⟩ := List.mem_map.mp hkg'
      obtain ⟨_, hk2, hk3 | hk3⟩ := hfcase kg
      · rw [hk3.1] at hr2
        obtain ⟨hlive, hall⟩ := hGmem kg hkg r2 hr2
        refine ⟨hlive, ?_⟩
        rw [hk2]
        show hasAllComponents ((m.store.set r e2).getD r2 default) kg.2.Components = true
        rw [hget r2]
        by_cases hrr : r2 = r
        · rw [if_pos hrr]
          have hall2 : hasAllComponents (getE m r) kg.2.Components = true := by
            rw [← hrr]
            exact hall
          apply hasAll_true_of_subset ?_ hall2
          intro C hC
          rw [hcomps2]
          exact List.mem_append_left _ hC
        · rw [if_neg hrr]
          exact hall
      · rw [hk3.1] at hr2
        rcases List.mem_append.mp hr2 with h4 | h4
        · obtain ⟨hlive, hall⟩ := hGmem kg hkg r2 h4
          refine ⟨hlive, ?_⟩
          rw [hk2]
          show hasAllComponents ((m.store.set r e2).getD r2 default) kg.2.Components = true
          rw [hget r2]
          by_cases hrr : r2 = r
          · rw [if_pos hrr]
            exact hk3.2.2.1
          · rw [if_neg hrr]
            exact hall
        · rw [List.mem_singleton.mp h4]
          refine ⟨hr, ?_⟩
          rw [hk2]
          show hasAllComponents ((m.store.set r e2).getD r default) kg.2.Components = true
          rw [hget r, if_pos rfl]
          exact hk3.2.2.1
    · intro kg' hkg' r2 h2 hall
      obtain ⟨kg, hkg, rfl⟩ := List.mem_map.mp hkg'
      obtain ⟨_, hk2, hk3 | hk3⟩ := hfcase kg
      · rw [hk3.1]
        rw [hk2] at hall
        have hall' : hasAllComponents ((m.store.set r e2).getD r2 default)
            kg.2.Components = true := hall
        rw [hget r2] at hall'
        by_cases hrr : r2 = r
        · rw [if_pos hrr] at hall'
          rcases hk3.2 with hcont | hfalse | hin
          · rw [hasAll_comps_append_of_not_mem hcomps2
              (not_mem_of_contains_false hcont)] at hall'
            subst hrr
            exact hGall kg hkg r2 h2 hall'
          · rw [hall'] at hfalse
            cases hfalse
          · subst hrr
            exact hin
        · rw [if_neg hrr] at hall'
          exact hGall kg hkg r2 h2 hall'
      · rw [hk3.1]
        rw [hk2] at hall
        have hall' : hasAllComponents ((m.store.set r e2).getD r2 default)
            kg.2.Components = true := hall
        rw [hget r2] at hall'
        by_cases hrr : r2 = r
        · subst hrr
          exact List.mem_append_right _ (List.mem_singleton.mpr rfl)
        · rw [if_neg hrr] at hall'
          exact List.mem_append_left _ (hGall kg hkg r2 h2 hall')

theorem getD_append_left {α : Type} {l : List α} {a d : α} {i : Nat} (h : i < l.length) :
    (l ++ [a]).getD i d = l.getD i d := by
  rw [List.getD_eq_get?, List.getD_eq_get?, List.get?_append h]

theorem createEntity_wf (m : Manager) (hwf : Wf m) :
    (Part0.createEntity m).1.tags = m.tags ∧
    (Part0.createEntity m).1.groups = m.groups ∧
    (Part0.createEntity m).1.camelCase = m.camelCase ∧
    (Part0.createEntity m).1.entities = m.entities ++ [(Part0.createEntity m).2] ∧
    (Part0.createEntity m).2 ∉ m.entities ∧
    (getE (Part0.createEntity m).1 (Part0.createEntity m).2).comps = [] ∧
    (∀ r2 ∈ m.entities, getE (Part0.createEntity m).1 r2 = getE m r2) ∧
    Wf (Part0.createEntity m).1 := by
  obtain ⟨hEnod, hEval, hPnod, hPval, hPE, hTnod, hTlive, hCnod, hCname,
    hGkey, hGne, hGnod, hGmem, hGall⟩ := hwf
  cases hp : m.pool with
  | cons r rest =>
    have hrlen : r < m.store.length := hPval r (by rw [hp]; exact List.mem_cons_self _ _)
    have hrnot : r ∉ m.entities := hPE r (by rw [hp]; exact List.mem_cons_self _ _)
    simp only [Part0.createEntity, hp]
    set e2 : EntityData :=
      { getE m r with eid := m.nextId, comps := [], tags := [] } with he2
    have hg1 : (m.store.set r e2).getD r default = e2 := getD_set_same _ _ hrlen
    have hother : ∀ r2 ∈ m.entities, (m.store.set r e2).getD r2 default
        = m.store.getD r2 default := by
      intro r2 h2
      exact getD_set_other _ _ (fun hh => hrnot (hh ▸ h2))
    refine ⟨trivial, trivial, trivial, trivial, hrnot, ?_, ?_, ?_⟩
    · show ((m.store.set r e2).getD r default).comps = []
      rw [hg1]
    · intro r2 h2
      show (m.store.set r e2).getD r2 default = getE m r2
      rw [hother r2 h2]
      rfl
    · refine ⟨?_, ?_, ?_, ?_, ?_, hTnod, ?_, ?_, ?_, hGkey, hGne, hGnod, ?_, ?_⟩
      · show (m.entities ++ [r]).Nodup
        rw [List.nodup_append]
        exact ⟨hEnod, List.nodup_singleton r,
          fun a ha hb => (List.mem_singleton.mp hb ▸ hrnot) ha⟩
      · intro r2 h2
        show r2 < (m.store.set r e2).length
        rw [List.length_set]
        rcases List.mem_append.mp h2 with h3 | h3
        · exact hEval r2 h3
        · rw [List.mem_singleton.mp h3]
          exact hrlen
      · show rest.Nodup
        rw [hp] at hPnod
        exact (List.nodup_cons.mp hPnod).2
      · intro r2 h2
        show r2 < (m.store.set r e2).length
        rw [List.length_set]
        exact hPval r2 (by rw [hp]; exact List.mem_cons_of_mem _ h2)
      · intro r2 h2 hmem
        have h2p : r2 ∈ m.pool := by rw [hp]; exact List.mem_cons_of_mem _ h2
        rcases List.mem_append.mp hmem with h3 | h3
        · exact hPE r2 h2p h3
        · rw [hp] at hPnod
          exact (List.nodup_cons.mp hPnod).1 ((List.mem_singleton.mp h3) ▸ h2)
      · intro p hpt r2 h2
        exact List.mem_append_left _ (hTlive p hpt r2 h2)
      · intro r2 h2
        show ((m.store.set r e2).getD r2 default).comps.Nodup
        rcases List.mem_append.mp h2 with h3 | h3
        · rw [hother r2 h3]
          exact hCnod r2 h3
        · rw [List.mem_singleton.mp h3, hg1]
          exact List.nodup_nil
      · intro r2 h2 c2 hc2
        have hc2' : c2 ∈ ((m.store.set r e2).getD r2 default).comps := hc2
        rcases List.mem_append.mp h2 with h3 | h3
        · rw [hother r2 h3] at hc2'
          exact hCname r2 h3 c2 hc2'
        · rw [List.mem_singleton.mp h3, hg1] at hc2'
          cases hc2'
      · intro kg hkg r2 h2
        obtain ⟨hlive, hall⟩ := hGmem kg hkg r2 h2
        refine ⟨List.mem_append_left _ hlive, ?_⟩
        show hasAllComponents ((m.store.set r e2).getD r2 default) kg.2.Components = true
        rw [hother r2 hlive]
        exact hall
      · intro kg hkg r2 h2 hall
        have hall' : hasAllComponents ((m.store.set r e2).getD r2 default)
            kg.2.Components = true := hall
        rcases List.mem_append.mp h2 with h3 | h3
        · rw [hother r2 h3] at hall'
          exact hGall kg hkg r2 h3 hall'
        · exfalso
          rw [List.mem_singleton.mp h3, hg1] at hall'
          rw [hasAll_nil_comps_false (by rw [he2]) (hGne kg hkg)] at hall'
          cases hall'
  | nil =>
    simp only [Part0.createEntity, hp]
    have hrnot : m.store.length ∉ m.entities := by
      intro hmem
      exact absurd (hEval _ hmem) (by omega)
    set e2 : EntityData := { eid := m.nextId, tags := [], comps := [], props := [] } with he2
    have hg1 : (m.store ++ [e2]).getD m.store.length default = e2 := by
      rw [List.getD_eq_get?, List.get?_concat_length]
      rfl
    have hother : ∀ r2 ∈ m.entities, (m.store ++ [e2]).getD r2 default
        = m.store.getD r2 default := by
      intro r2 h2
      exact getD_append_left (hEval r2 h2)
    refine ⟨trivial, trivial, trivial, trivial, hrnot, ?_, ?_, ?_⟩
    · show ((m.store ++ [e2]).getD m.store.length default).comps = []
      rw [hg1]
    · intro r2 h2
      show (m.store ++ [e2]).getD r2 default = getE m r2
      rw [hother r2 h2]
      rfl
    · refine ⟨?_, ?_, ?_, ?_, ?_, hTnod, ?_, ?_, ?_, hGkey, hGne, hGnod, ?_, ?_⟩
      · show (m.entities ++ [m.store.length]).Nodup
        rw [List.nodup_append]
        exact ⟨hEnod, List.nodup_singleton _,
          fun a ha hb => (List.mem_singleton.mp hb ▸ hrnot) ha⟩
      · intro r2 h2
        show r2 < (m.store ++ [e2]).length
        rw [List.length_append]
        rcases List.mem_append.mp h2 with h3 | h3
        · exact Nat.lt_of_lt_of_le (hEval r2 h3) (Nat.le_add_right _ _)
        · rw [List.mem_singleton.mp h3]
          simp
      · show (List.nil : List Nat).Nodup
        exact List.nodup_nil
      · intro r2 h2
        cases h2
      · intro r2 h2
        cases h2
      · intro p hpt r2 h2
        exact List.mem_append_left _ (hTlive p hpt r2 h2)
      · intro r2 h2
        show ((m.store ++ [e2]).getD r2 default).comps.Nodup
        rcases List.mem_append.mp h2 with h3 | h3
        · rw [hother r2 h3]
          exact hCnod r2 h3
        · rw [List.mem_singleton.mp h3, hg1]
          exact List.nodup_nil
      · intro r2 h2 c2 hc2
        have hc2' : c2 ∈ ((m.store ++ [e2]).getD r2 default).comps := hc2
        rcases List.mem_append.mp h2 with h3 | h3
        · rw [hother r2 h3] at hc2'
          exact hCname r2 h3 c2 hc2'
        · rw [List.mem_singleton.mp h3, hg1] at hc2'
          cases hc2'
      · intro kg hkg r2 h2
        obtain ⟨hlive, hall⟩ := hGmem kg hkg r2 h2
        refine ⟨List.mem_append_left _ hlive, ?_⟩
        show hasAllComponents ((m.store ++ [e2]).getD r2 default) kg.2.Components = true
        rw [hother r2 hlive]
        exact hall
      · intro kg hkg r2 h2 hall
        have hall' : hasAllComponents ((m.store ++ [e2]).getD r2 default)
            kg.2.Components = true := hall
        rcases List.mem_append.mp h2 with h3 | h3
        · rw [hother r2 h3] at hall'
          exact hGall kg hkg r2 h3 hall'
        · exfalso
          rw [List.mem_singleton.mp h3, hg1] at hall'
          rw [hasAll_nil_comps_false (by rw [he2]) (hGne kg hkg)] at hall'
          cases hall'

theorem queryComponents_wf (m : Manager) (S : List CompType) (hwf : Wf m) (hS : ¬(S = [])) :
    (Part0.queryComponents m S).1.entities = m.entities ∧
    (Part0.queryComponents m S).1.tags = m.tags ∧
    (Part0.queryComponents m S).1.pool = m.pool ∧
    (Part0.queryComponents m S).1.store = m.store ∧
    (Part0.queryComponents m S).1.nextId = m.nextId ∧
    (Part0.queryComponents m S).1.camelCase = m.camelCase ∧
    ((Part0.queryComponents m S).1.groups = m.groups ∨
      (Part0.queryComponents m S).1.groups
        = m.groups ++ [(Part0.groupKey S,
            (⟨S, m.entities.filter (fun r => hasAllComponents (getE m r) S)⟩ : CompGroup))]) ∧
    Wf (Part0.queryComponents m S).1 := by
  obtain ⟨hEnod, hEval, hPnod, hPval, hPE, hTnod, hTlive, hCnod, hCname,
    hGkey, hGne, hGnod, hGmem, hGall⟩ := hwf
  cases hlook : lookupA m.groups (Part0.groupKey S) with
  | some g =>
    simp only [Part0.queryComponents, hlook]
    exact ⟨trivial, trivial, trivial, trivial, trivial, trivial, Or.inl trivial,
      hEnod, hEval, hPnod, hPval, hPE, hTnod, hTlive, hCnod, hCname,
      hGkey, hGne, hGnod, hGmem, hGall⟩
  | none =>
    simp only [Part0.queryComponents, Part0.indexGroup, hlook]
    refine ⟨trivial, trivial, trivial, trivial, trivial, trivial, Or.inr trivial, ?_⟩
    refine ⟨hEnod, hEval, hPnod, hPval, hPE, hTnod, hTlive, hCnod, hCname,
      ?_, ?_, ?_, ?_, ?_⟩
    · intro kg hkg
      rcases List.mem_append.mp hkg with h1 | h1
      · exact hGkey kg h1
      · rw [List.mem_singleton.mp h1]
    · intro kg hkg
      rcases List.mem_append.mp hkg with h1 | h1
      · exact hGne kg h1
      · rw [List.mem_singleton.mp h1]
        exact hS
    · intro kg hkg
      rcases List.mem_append.mp hkg with h1 | h1
      · exact hGnod kg h1
      · rw [List.mem_singleton.mp h1]
        exact List.Nodup.filter _ hEnod
    · intro kg hkg r2 h2
      rcases List.mem_append.mp hkg with h1 | h1
      · exact hGmem kg h1 r2 h2
      · rw [List.mem_singleton.mp h1] at h2 ⊢
        have := List.mem_filter.mp h2
        exact ⟨this.1, this.2⟩
    · intro kg hkg r2 h2 hall
      rcases List.mem_append.mp hkg with h1 | h1
      · exact hGall kg h1 r2 h2 hall
      · rw [List.mem_singleton.mp h1] at hall ⊢
        exact List.mem_filter.mpr ⟨h2, hall⟩

theorem queryComponents_result (m : Manager) (S : List CompType) (hwf : Wf m)
    (hsem : ∀ kg ∈ m.groups, Part0.groupKey kg.2.Components = Part0.groupKey S →
      ∀ e : EntityData, hasAllComponents e kg.2.Components = hasAllComponents e S) :
    ∀ r, r ∈ (Part0.queryComponents m S).2 ↔
      (r ∈ m.entities ∧ hasAllComponents (getE m r) S = true) := by
  obtain ⟨hEnod, hEval, hPnod, hPval, hPE, hTnod, hTlive, hCnod, hCname,
    hGkey, hGne, hGnod, hGmem, hGall⟩ := hwf
  intro r
  cases hlook : lookupA m.groups (Part0.groupKey S) with
  | some g =>
    simp only [Part0.queryComponents, hlook]
    have hmemg : (Part0.groupKey S, g) ∈ m.groups := lookupA_mem hlook
    have hkeyg : Part0.groupKey g.Components = Part0.groupKey S :=
      (hGkey (Part0.groupKey S, g) hmemg).symm
    have hsem2 := hsem (Part0.groupKey S, g) hmemg hkeyg
    constructor
    · intro h2
      obtain ⟨hlive, hall⟩ := hGmem (Part0.groupKey S, g) hmemg r h2
      refine ⟨hlive, ?_⟩
      rw [← hsem2 (getE m r)]
      exact hall
    · intro h2
      apply hGall (Part0.groupKey S, g) hmemg r h2.1
      rw [hsem2 (getE m r)]
      exact h2.2
  | none =>
    simp only [Part0.queryComponents, Part0.indexGroup, hlook]
    constructor
    · intro h2
      have h3 : r ∈ m.entities.filter (fun r2 => hasAllComponents (getE m r2) S) := h2
      have := List.mem_filter.mp h3
      exact ⟨this.1, this.2⟩
    · intro h2
      show r ∈ m.entities.filter (fun r2 => hasAllComponents (getE m r2) S)
      exact List.mem_filter.mpr ⟨h2.1, h2.2⟩

theorem sameSetb_hasAll {S1 S2 : List CompType} (h : sameSetb S1 S2 = true)
    (e : EntityData) : hasAllComponents e S1 = hasAllComponents e S2 := by
  rw [sameSetb, Bool.and_eq_true, List.all_eq_true, List.all_eq_true] at h
  apply bool_eq_of_iff
  rw [hasAllComponents, hasAllComponents, List.all_eq_true, List.all_eq_true]
  constructor
  · intro hh C hC
    exact hh C (contains_iff_mem.mp (h.2 C hC))
  · intro hh C hC
    exact hh C (contains_iff_mem.mp (h.1 C hC))

theorem keysOKb_spec {L : List (List CompType)} (h : keysOKb L = true)
    {S1 : List CompType} (h1 : S1 ∈ L) {S2 : List CompType} (h2 : S2 ∈ L)
    (hk : Part0.groupKey S1 = Part0.groupKey S2) : sameSetb S1 S2 = true := by
  rw [keysOKb, List.all_eq_true] at h
  have h3 := List.all_eq_true.mp (h S1 h1) S2 h2
  rw [Bool.or_eq_true] at h3
  rcases h3 with h4 | h4
  · exfalso
    simp at h4
    exact h4 hk
  · exact h4

theorem qargs_cons_sub (op : Op) (rest : List Op) :
    ∀ S ∈ qargs rest, S ∈ qargs (op :: rest) := by
  intro S hS
  cases op with
  | create => exact hS
  | remove r => exact hS
  | addC r c => exact hS
  | removeC r c => exact hS
  | query S2 => exact List.mem_cons_of_mem _ hS

theorem groupsFrom_of_gskel {qs : List (List CompType)} {m m2 : Manager}
    (h : gskel m2 = gskel m) (hg : ∀ kg ∈ m.groups, kg.2.Components ∈ qs) :
    ∀ kg ∈ m2.groups, kg.2.Components ∈ qs := by
  intro kg hkg
  have hmem : (kg.1, kg.2.Components) ∈ gskel m2 := List.mem_map.mpr ⟨kg, hkg, rfl⟩
  rw [h] at hmem
  obtain ⟨kg2, hkg2, heq⟩ := List.mem_map.mp hmem
  have hcc : kg2.2.Components = kg.2.Components := congrArg Prod.snd heq
  rw [← hcc]
  exact hg kg2 hkg2

theorem runOps_wf (qs : List (List CompType)) : ∀ (ops : List Op) (m : Manager),
    Wf m → (∀ kg ∈ m.groups, kg.2.Components ∈ qs) →
    opsOKb m ops = true → (∀ S ∈ qargs ops, S ∈ qs) →
    Wf (runOps m ops) ∧ (∀ kg ∈ (runOps m ops).groups, kg.2.Components ∈ qs) := by
  intro ops
  induction ops with
  | nil =>
    intro m hwf hg _ _
    exact ⟨hwf, hg⟩
  | cons op rest ih =>
    intro m hwf hg hok hq
    have hq' : ∀ S ∈ qargs rest, S ∈ qs := fun S hS => hq S (qargs_cons_sub op rest S hS)
    have hstep : Wf (applyOp m op) ∧
        (∀ kg ∈ (applyOp m op).groups, kg.2.Components ∈ qs) ∧
        opsOKb (applyOp m op) rest = true := by
      cases op with
      | create =>
        simp only [opsOKb, Bool.and_eq_true] at hok
        obtain ⟨_, hrest⟩ := hok
        obtain ⟨htags, hgroups, _, _, _, _, _, hwf2⟩ := createEntity_wf m hwf
        refine ⟨hwf2, ?_, hrest⟩
        show ∀ kg ∈ (Part0.createEntity m).1.groups, kg.2.Components ∈ qs
        rw [hgroups]
        exact hg
      | remove r =>
        simp only [opsOKb, Bool.and_eq_true] at hok
        obtain ⟨_, hrest⟩ := hok
        by_cases hr : r ∈ m.entities
        · obtain ⟨_, _, _, _, _, _, _, _, hskel, hwf2⟩ := removeEntity_wf m r hwf hr
          exact ⟨hwf2, groupsFrom_of_gskel hskel hg, hrest⟩
        · have hmm : applyOp m (Op.remove r) = m := by
            show (Part0.removeEntity m r).m = m
            rw [removeEntity_err m r hr]
          rw [hmm] at hrest ⊢
          exact ⟨hwf, hg, hrest⟩
      | addC r c =>
        simp only [opsOKb, Bool.and_eq_true] at hok
        obtain ⟨⟨hrc, hnc⟩, hrest⟩ := hok
        by_cases hcm : c ∈ (getE m r).comps
        · have hmm : applyOp m (Op.addC r c) = m := by
            show (Part0.entityAddComponent m r c).m = m
            rw [entityAddComponent_present_noop m r c hcm]
          rw [hmm] at hrest ⊢
          exact ⟨hwf, hg, hrest⟩
        · have hn : ¬(c.cname = "") := by
            intro hh
            rw [hh] at hnc
            simp at hnc
          obtain ⟨cn, hcn⟩ := componentPropertyName_isSome m.camelCase hn
          obtain ⟨_, _, _, _, _, _, _, _, _, hskel, hwf2⟩ :=
            entityAddComponent_wf m r c cn hwf (contains_iff_mem.mp hrc) hcm hcn
          exact ⟨hwf2, groupsFrom_of_gskel hskel hg, hrest⟩
      | removeC r c =>
        simp only [opsOKb, Bool.and_eq_true] at hok
        obtain ⟨hrc, hrest⟩ := hok
        by_cases hcm : c ∈ (getE m r).comps
        · obtain ⟨_, _, _, _, _, _, _, _, _, hskel, hwf2⟩ :=
            entityRemoveComponent_wf m r c hwf (contains_iff_mem.mp hrc) hcm
          exact ⟨hwf2, groupsFrom_of_gskel hskel hg, hrest⟩
        · have hmm : applyOp m (Op.removeC r c) = m := by
            show (Part0.entityRemoveComponent m r c).m = m
            rw [entityRemoveComponent_noop m r c hcm]
          rw [hmm] at hrest ⊢
          exact ⟨hwf, hg, hrest⟩
      | query S =>
        simp only [opsOKb, Bool.and_eq_true] at hok
        obtain ⟨hne, hrest⟩ := hok
        have hS : ¬(S = []) := by
          intro hh
          rw [hh] at hne
          simp at hne
        obtain ⟨_, _, _, _, _, _, hgroups, hwf2⟩ := queryComponents_wf m S hwf hS
        refine ⟨hwf2, ?_, hrest⟩
        show ∀ kg ∈ (Part0.queryComponents m S).1.groups, kg.2.Components ∈ qs
        rcases hgroups with hsame | happ
        · rw [hsame]
          exact hg
        · rw [happ]
          intro kg hkg
          rcases List.mem_append.mp hkg with h1 | h1
          · exact hg kg h1
          · rw [List.mem_singleton.mp h1]
            exact hq S (by exact List.mem_cons_self _ _)
    obtain ⟨hwf2, hg2, hrest2⟩ := hstep
    exact ih (applyOp m op) hwf2 hg2 hrest2 hq'

/-- Counterexample to C1 as stated. Three concrete failures after short
operation sequences from a fresh manager. (1) Empty set: after a
`queryComponents([])` indexes the empty-set group, a later `createEntity`
does not update it, so the group misses a live entity whose component set
trivially includes the empty set. (2) Name collision: two distinct
component types named "x" share a group key, so `queryComponents` returns
the other type's cached group. (3) Unnameable type: the failed
`entityAddComponent` leaves the type on the entity without updating the
indexed group. -/
theorem queryComponents_stale_counterexample :
    (1 ∈ (runOps (Part0.mkManager none) [Op.create, Op.query [], Op.create]).entities ∧
     hasAllComponents
       (getE (runOps (Part0.mkManager none) [Op.create, Op.query [], Op.create]) 1) []
       = true ∧
     1 ∉ (Part0.queryComponents
       (runOps (Part0.mkManager none) [Op.create, Op.query [], Op.create]) []).2) ∧
    (0 ∈ (runOps (Part0.mkManager none)
        [Op.create, Op.addC 0 ⟨7, "x"⟩, Op.query [⟨8, "x"⟩]]).entities ∧
     hasAllComponents
       (getE (runOps (Part0.mkManager none)
         [Op.create, Op.addC 0 ⟨7, "x"⟩, Op.query [⟨8, "x"⟩]]) 0) [⟨7, "x"⟩] = true ∧
     0 ∉ (Part0.queryComponents
       (runOps (Part0.mkManager none)
         [Op.create, Op.addC 0 ⟨7, "x"⟩, Op.query [⟨8, "x"⟩]]) [⟨7, "x"⟩]).2) ∧
    (0 ∈ (runOps (Part0.mkManager none)
        [Op.create, Op.query [⟨9, ""⟩], Op.addC 0 ⟨9, ""⟩]).entities ∧
     hasAllComponents
       (getE (runOps (Part0.mkManager none)
         [Op.create, Op.query [⟨9, ""⟩], Op.addC 0 ⟨9, ""⟩]) 0) [⟨9, ""⟩] = true ∧
     0 ∉ (Part0.queryComponents
       (runOps (Part0.mkManager none)
         [Op.create, Op.query [⟨9, ""⟩], Op.addC 0 ⟨9, ""⟩]) [⟨9, ""⟩]).2) := by
  exact ⟨⟨by decide, by decide, by decide⟩, ⟨by decide, by decide, by decide⟩,
    ⟨by decide, by decide, by decide⟩⟩

/-- C1 amended: for every sequence of createEntity / removeEntity /
entityAddComponent / entityRemoveComponent / queryComponents calls from a
fresh manager in which component operations address live entities, every
attached component type has a non-empty derived name, every query names a
non-empty component-type set, and the group keys of the queried sets
separate those sets, `queryComponents(S)` returns exactly the set of
currently live entities whose component-type set is a superset of `S`. -/
theorem queryComponents_exact_superset_holders (ops : List Op) (S : List CompType) (r : Nat)
    (h1 : opsOKb (Part0.mkManager none) ops = true)
    (h2 : ¬(S = []))
    (h3 : keysOKb (S :: qargs ops) = true) :
    r ∈ (Part0.queryComponents (runOps (Part0.mkManager none) ops) S).2 ↔
      (r ∈ (runOps (Part0.mkManager none) ops).entities ∧
       hasAllComponents (getE (runOps (Part0.mkManager none) ops) r) S = true) := by
  have hfresh : Wf (Part0.mkManager none) := by decide
  have hg0 : ∀ kg ∈ (Part0.mkManager none).groups, kg.2.Components ∈ qargs ops := by
    intro kg hkg
    cases hkg
  obtain ⟨hwf, hgF⟩ := runOps_wf (qargs ops) ops (Part0.mkManager none) hfresh hg0 h1
    (fun S2 hS2 => hS2)
  apply queryComponents_result (runOps (Part0.mkManager none) ops) S hwf
  intro kg hkg hkey e
  have hin : kg.2.Components ∈ S :: qargs ops := List.mem_cons_of_mem _ (hgF kg hkg)
  have hSin : S ∈ S :: qargs ops := List.mem_cons_self _ _
  exact sameSetb_hasAll (keysOKb_spec h3 hin hSin hkey) e

/-- Witness for the amended C1: one entity with Position; the Position
query lists exactly it. -/
theorem queryComponents_exact_superset_holders_witness :
    0 ∈ (Part0.queryComponents
        (runOps (Part0.mkManager none) [Op.create, Op.addC 0 posC, Op.query [posC]])
        [posC]).2 ↔
      (0 ∈ (runOps (Part0.mkManager none)
          [Op.create, Op.addC 0 posC, Op.query [posC]]).entities ∧
       hasAllComponents
         (getE (runOps (Part0.mkManager none)
           [Op.create, Op.addC 0 posC, Op.query [posC]]) 0) [posC] = true) :=
  queryComponents_exact_superset_holders [Op.create, Op.addC 0 posC, Op.query [posC]]
    [posC] 0 (by decide) (by decide) (by decide)
